import Mathlib

/-!
# traefik-change-response: the response capture and the override pass

A shallow embedding of `processor.go`, `response_writer_wrapper.go` and
`changeresponse.go`.

Conventions of the embedding.

* A Go `string` (header names and values, modes, rule bodies, plugin name) is
  a Lean `String`, that is, text in UTF-8 as a configuration file gives it; a
  Go `[]byte` and the content of a `bytes.Buffer` is a `List UInt8`, any bytes.
  Writing a string into a buffer appends its UTF-8 bytes, so `body.Len()`
  counts bytes, not characters.
* A Go `int` status code is an `Int` (no arithmetic is done on it).
* `http.Header` (`map[string][]string`) is a function from the raw map key to
  the value list stored under it, `none` for a key that is not in the map.
* The `Headers` of a rule is also a Go map; the order in which `range` visits
  it is unspecified, so a rule carries its entries as a list, in the order the
  loop visits them.  A statement proved for every list holds for every order.
* The real writer behind the capture is an interface value: it is a record of
  its header map and of what its `Write` method answers.  The calls made on
  it, and on the two sinks `Alert` and `Notify`, are collected in a log.
-/

namespace ChangeResponse

/-! ## net/textproto, net/http: header maps -/

/-- Go `validHeaderFieldByte`: the bytes allowed in a header field name
(RFC 7230 token characters: letters, digits and the fifteen punctuation marks
of the bitmap in `net/textproto`). -/
def validHeaderFieldByte (c : Char) : Bool :=
  c.isAlphanum ||
    [33, 35, 36, 37, 38, 39, 42, 43, 45, 46, 94, 95, 96, 124, 126].contains c.toNat

/-- The case loop of Go `canonicalMIMEHeaderKey`: upper case for the first
letter and for a letter after a dash, lower case for every other letter. -/
def canonicalCase : Bool → List Char → List Char
  | _, [] => []
  | upper, c :: cs =>
    let c1 := if upper && c.isLower then c.toUpper
              else if !upper && c.isUpper then c.toLower
              else c
    c1 :: canonicalCase (c1 == '-') cs

/-- Go `textproto.CanonicalMIMEHeaderKey`.  A key holding a byte that is not a
valid header field byte (a space, a non-ASCII byte) is returned unchanged;
every other key is returned in canonical case. -/
def CanonicalMIMEHeaderKey (s : String) : String :=
  if s.data.all validHeaderFieldByte then String.mk (canonicalCase true s.data) else s

/-- Go `http.Header`, a `map[string][]string`: the value list stored under a
raw key, `none` when the key is not in the map. -/
abbrev Header := String → Option (List String)

/-- Go `Header.Del`: `delete(h, CanonicalMIMEHeaderKey(key))`. -/
def Header.Del (h : Header) (key : String) : Header :=
  fun k => if k = CanonicalMIMEHeaderKey key then none else h k

/-- Go `Header.Add`: `h[key] = append(h[key], value)` at the canonical key. -/
def Header.Add (h : Header) (key value : String) : Header :=
  fun k => if k = CanonicalMIMEHeaderKey key then some ((h k).getD [] ++ [value]) else h k

/-- Go `Header.Set`: `h[key] = []string{value}` at the canonical key. -/
def Header.Set (h : Header) (key value : String) : Header :=
  fun k => if k = CanonicalMIMEHeaderKey key then some [value] else h k

/-- Go `Header.Values`: the value list under the canonical key, empty when the
key is not in the map. -/
def Header.Values (h : Header) (key : String) : List String :=
  (h (CanonicalMIMEHeaderKey key)).getD []

/-- A header map given by its entries (the first entry of a key counts). -/
def Header.ofList (l : List (String × List String)) : Header :=
  fun k => (l.find? (fun e => e.1 == k)).map Prod.snd

/-- The bytes of a Go string: `[]byte(s)`. -/
def stringBytes (s : String) : List UInt8 := s.toUTF8.data.toList

/-- Go `strconv.Itoa` on a length (a non-negative `int`). -/
def Itoa (n : Nat) : String := Nat.repr n

/-! ## changeresponse.go -/

/-- Go `Override`: a single override rule. -/
structure Override where
  From : List Int
  To : Int
  Headers : List (String × List String)
  RemoveHeaders : List String
  Body : String
  Mode : String
  deriving DecidableEq

/-- Go `Config`. -/
structure Config where
  Overrides : List Override
  Debug : Bool

/-- The real writer behind the capture (an `http.ResponseWriter`): its header
map, and what its `Write` method answers on a byte slice (the number of bytes
it accepted and the error, if any). -/
structure ResponseWriter where
  Header : ChangeResponse.Header
  Write : List UInt8 → Nat × Option String

/-! ## response_writer_wrapper.go -/

/-- Go `ResponseWriterWrapper`: captures the response body and status. -/
structure ResponseWriterWrapper where
  ResponseWriter : ChangeResponse.ResponseWriter
  body : List UInt8
  status : Int

/-- Go `(*ResponseWriterWrapper).WriteHeader`: `rw.status = statusCode`. -/
def ResponseWriterWrapper.WriteHeader (rw : ResponseWriterWrapper) (statusCode : Int) :
    ResponseWriterWrapper :=
  { rw with status := statusCode }

/-- Go `(*ResponseWriterWrapper).Write`: `return rw.body.Write(data)`; the
buffer grows by `data` and the answer is `(len(data), nil)`. -/
def ResponseWriterWrapper.Write (rw : ResponseWriterWrapper) (data : List UInt8) :
    ResponseWriterWrapper × Nat × Option String :=
  ({ rw with body := rw.body ++ data }, data.length, none)

/-- Go `Plugin`.  The upstream handler `next` is what it does to the capture
it is given.  `config` is the non-nil pointer a plugin built by `New` holds. -/
structure Plugin where
  next : ResponseWriterWrapper → ResponseWriterWrapper
  name : String
  config : Config

/-! ## processor.go -/

/-- Go constant `ModeReplace`. -/
def ModeReplace : String := "replace"

/-- Go constant `ModeKeep`. -/
def ModeKeep : String := "keep"

/-- Go constant `ModeAppend`. -/
def ModeAppend : String := "append"

/-- Go constant `ModePrepend`. -/
def ModePrepend : String := "prepend"

/-- The local variables of `changeResponse` that the rule loop updates.
`headers` is the header map of the real writer, edited in place. -/
structure Locals where
  statusCode : Int
  headers : Header
  body : List UInt8
  appliedOverride : Bool

/-- A Go panic raised inside the rule loop: its value, and the header map of
the real writer as the edits made before the panic left it. -/
structure Panic where
  value : String
  headers : Header

/-- One round of `for k, hv := range o.Headers`: the raw index `headers[k]`
decides whether `headers.Del(k)` runs, then every value is added. -/
def setHeader (headers : Header) (k : String) (hv : List String) : Header :=
  let headers := if (headers k).isSome then Header.Del headers k else headers
  hv.foldl (fun h v => Header.Add h k v) headers

/-- The `switch o.Mode` of `changeResponse` on the working body; an
unsupported mode panics. -/
def switchMode (body : List UInt8) (o : Override) : Except String (List UInt8) :=
  if o.Mode = ModeKeep then .ok body
  else if o.Mode = ModeAppend then .ok (body ++ stringBytes o.Body)
  else if o.Mode = ModePrepend then .ok (stringBytes o.Body ++ body)
  else if o.Mode = ModeReplace ∨ o.Mode = "" then .ok (stringBytes o.Body)
  else .error ("Unsupported override mode: " ++ o.Mode)

/-- The two header loops of a matching rule: `for _, h := range
o.RemoveHeaders`, then `for k, hv := range o.Headers`. -/
def editHeaders (headers : Header) (o : Override) : Header :=
  let headers := o.RemoveHeaders.foldl Header.Del headers
  o.Headers.foldl (fun h e => setHeader h e.1 e.2) headers

/-- The body of `if slices.Contains(o.From, wrapper.status)`: status, removed
headers, set headers, body rewrite, in the order of the source. -/
def applyOverride (v : Locals) (o : Override) : Except Panic Locals :=
  let headers := editHeaders v.headers o
  match switchMode v.body o with
  | .ok body => .ok { statusCode := o.To, headers := headers, body := body, appliedOverride := true }
  | .error msg => .error { value := msg, headers := headers }

/-- The loop `for _, o := range a.config.Overrides`; `status` is
`wrapper.status`, the key every rule is matched against. -/
def rangeOverrides (status : Int) : List Override → Locals → Except Panic Locals
  | [], v => .ok v
  | o :: os, v =>
    if status ∈ o.From then
      match applyOverride v o with
      | .ok v1 => rangeOverrides status os v1
      | .error p => .error p
    else rangeOverrides status os v

/-- A call made by `changeResponse` on the real writer or on a sink.
`Error` is `http.Error(rw, error, code)`; `Notify n s` is the notification
`Notify(fmt.Sprintf("writing body: [%d] %s", n, s))`. -/
inductive Call where
  | WriteHeader (statusCode : Int)
  | Write (data : List UInt8)
  | Alert (msg : String)
  | Error (error : String) (code : Int)
  | Notify (n : Nat) (s : List UInt8)
  deriving DecidableEq

/-- What one run of `changeResponse` leaves behind: the header map of the real
writer when the status was declared (when the run panicked in the rule loop
instead, as the panic left it), the calls made in order, and the panic value
if the run panicked. -/
structure Outcome where
  headers : Header
  calls : List Call
  panic : Option String

/-- The status declared on the real writer: the code of the first
`WriteHeader` call, `none` if there is none. -/
def Outcome.status (r : Outcome) : Option Int :=
  r.calls.findSome? (fun c => match c with
    | .WriteHeader statusCode => some statusCode
    | _ => none)

/-- The body handed to the real writer: the bytes of its `Write` calls. -/
def Outcome.body (r : Outcome) : List UInt8 :=
  (r.calls.map (fun c => match c with
    | .Write data => data
    | _ => [])).flatten

/-- Lines 76 to 86 of `changeResponse`: declare the status; `io.Copy(rw, body)`
(for a `*bytes.Buffer` source this is `Buffer.WriteTo`: one `rw.Write` of the
whole content when there is any, a panic when the writer claims more bytes
than it was given, `io.ErrShortWrite` when it accepted fewer without an
error, and an empty buffer after a full copy); on an error `Alert` and
`http.Error`; with `Debug` the notification about what is left in the buffer. -/
def emit (rw : ResponseWriter) (debug : Bool) (statusCode : Int) (headers : Header)
    (body : List UInt8) : Outcome :=
  let declared := [Call.WriteHeader statusCode]
  let tail (rest : List UInt8) : List Call := if debug then [Call.Notify rest.length rest] else []
  if body.length > 0 then
    let r := rw.Write body
    if r.1 > body.length then
      { headers := headers, calls := declared ++ [Call.Write body],
        panic := some "bytes.Buffer.WriteTo: invalid Write count" }
    else
      let err : Option String :=
        match r.2 with
        | some e => some e
        | none => if r.1 ≠ body.length then some "short write" else none
      match err with
      | some e =>
        { headers := headers,
          calls := declared ++ [Call.Write body, Call.Alert ("cannot write response body: " ++ e),
            Call.Error e 500] ++ tail (body.drop r.1),
          panic := none }
      | none => { headers := headers, calls := declared ++ [Call.Write body] ++ tail [], panic := none }
  else { headers := headers, calls := declared ++ tail [], panic := none }

/-- Lines 69 to 74 of `changeResponse`: the header map after the rule loop
gets `Content-Length`, and the marker header when a rule applied and `Debug`
is on. -/
def finalHeaders (v : Locals) (a : Plugin) : Header :=
  let headers := Header.Set v.headers "Content-Length" (Itoa v.body.length)
  if v.appliedOverride && a.config.Debug then Header.Add headers "X-Applied-Plugin" a.name
  else headers

/-- Lines 24 to 27 of `changeResponse`: buffer the current response values. -/
def bufferValues (wrapper : ResponseWriterWrapper) : Locals :=
  { statusCode := wrapper.status, headers := wrapper.ResponseWriter.Header,
    body := wrapper.body, appliedOverride := false }

/-- Go `changeResponse`: overrides the response if a status code in the
config matches. -/
def changeResponse (wrapper : ResponseWriterWrapper) (a : Plugin) : Outcome :=
  let rw := wrapper.ResponseWriter
  match rangeOverrides wrapper.status a.config.Overrides (bufferValues wrapper) with
  | .error p => { headers := p.headers, calls := [], panic := some p.value }
  | .ok v => emit rw a.config.Debug v.statusCode (finalHeaders v a) v.body

/-- Go `(*Plugin).ServeHTTP`: a fresh capture around the real writer is given
to the upstream handler, then `changeResponse` runs on it. -/
def Plugin.ServeHTTP (a : Plugin) (rw : ResponseWriter) : Outcome :=
  changeResponse (a.next { ResponseWriter := rw, body := [], status := 0 }) a

/-- The error `io.Copy(rw, body)` hands back to `changeResponse` when
`Buffer.WriteTo` does not panic: the error of the one `rw.Write`, else
`io.ErrShortWrite` when the writer accepted fewer bytes than it was given;
`none` when the copy succeeds (also for an empty buffer, which is not
written at all). -/
def copyError (rw : ResponseWriter) (body : List UInt8) : Option String :=
  if body.length > 0 then
    match (rw.Write body).2 with
    | some e => some e
    | none => if (rw.Write body).1 ≠ body.length then some "short write" else none
  else none

/-! ## changeresponse.go: construction -/

/-- Go `CreateConfig`: `&Config{}`. -/
def CreateConfig : Config := { Overrides := [], Debug := false }

/-- What a call of `New` leaves behind: the handler it returns (`nil` is
`none`), the message of the error it returns, and the arguments `name` and
`config` of each `Notify(fmt.Sprintf("defined config %s: %v", name, config))`
it made. -/
structure Built where
  handler : Option Plugin
  err : Option String
  notified : List (String × Config)

/-- Go `New`; `config` is a pointer, `none` for `nil`.  The context argument
is not used by the source. -/
def New (next : ResponseWriterWrapper → ResponseWriterWrapper) (config : Option Config)
    (name : String) : Built :=
  match config with
  | none => { handler := none, err := some "config must be defined", notified := [] }
  | some c =>
    if c.Overrides.length = 0 then
      { handler := none, err := some "at least one override rule is required", notified := [] }
    else
      { handler := some { next := next, name := name, config := c }, err := none,
        notified := if c.Debug then [(name, c)] else [] }

/-! ## processor.go: the effects of `changeResponse` in the order of the source -/

/-- A mutation of the header map of the real writer. -/
inductive HeaderOp where
  | Del (key : String)
  | Add (key value : String)
  | Set (key value : String)
  deriving DecidableEq

/-- The header map after a mutation. -/
def HeaderOp.run (h : Header) : HeaderOp → Header
  | .Del key => Header.Del h key
  | .Add key value => Header.Add h key value
  | .Set key value => Header.Set h key value

/-- The mutations of one round of `for k, hv := range o.Headers`. -/
def setHeaderOps (headers : Header) (k : String) (hv : List String) : List HeaderOp :=
  (if (headers k).isSome then [HeaderOp.Del k] else []) ++ hv.map (HeaderOp.Add k)

/-- The mutations of the loop `for k, hv := range o.Headers`, started on the
given header map. -/
def rangeHeadersOps (headers : Header) : List (String × List String) → List HeaderOp
  | [] => []
  | e :: es => setHeaderOps headers e.1 e.2 ++ rangeHeadersOps (setHeader headers e.1 e.2) es

/-- The mutations of the two header loops of a matching rule. -/
def editHeadersOps (headers : Header) (o : Override) : List HeaderOp :=
  o.RemoveHeaders.map HeaderOp.Del ++
    rangeHeadersOps (o.RemoveHeaders.foldl Header.Del headers) o.Headers

/-- The mutations of the rule loop, up to its end or to the panic. -/
def rangeOverridesOps (status : Int) : List Override → Locals → List HeaderOp
  | [], _ => []
  | o :: os, v =>
    if status ∈ o.From then
      editHeadersOps v.headers o ++
        (match applyOverride v o with
         | .ok v1 => rangeOverridesOps status os v1
         | .error _ => [])
    else rangeOverridesOps status os v

/-- The mutations of lines 69 to 74 of `changeResponse`. -/
def finalHeadersOps (v : Locals) (a : Plugin) : List HeaderOp :=
  [HeaderOp.Set "Content-Length" (Itoa v.body.length)] ++
    (if v.appliedOverride && a.config.Debug then [HeaderOp.Add "X-Applied-Plugin" a.name]
     else [])

/-- What the real writer and the sinks see, one after the other. -/
inductive Event where
  | Header (op : HeaderOp)
  | Call (c : Call)
  deriving DecidableEq

/-- Go `changeResponse` as the sequence of its effects: the header mutations
of lines 29 to 74, then the calls of lines 76 to 86. -/
def changeResponseTrace (wrapper : ResponseWriterWrapper) (a : Plugin) : List Event :=
  let loopOps := rangeOverridesOps wrapper.status a.config.Overrides (bufferValues wrapper)
  match rangeOverrides wrapper.status a.config.Overrides (bufferValues wrapper) with
  | .error _ => loopOps.map Event.Header
  | .ok v =>
    (loopOps ++ finalHeadersOps v a).map Event.Header ++
      (emit wrapper.ResponseWriter a.config.Debug v.statusCode (finalHeaders v a) v.body).calls.map
        Event.Call

/-! ## Vocabulary of the statements -/

/-- The modes the `switch` of `changeResponse` has a case for. -/
def SupportedMode (mode : String) : Prop :=
  mode = ModeKeep ∨ mode = ModeAppend ∨ mode = ModePrepend ∨ mode = ModeReplace ∨ mode = ""

instance (mode : String) : Decidable (SupportedMode mode) :=
  inferInstanceAs (Decidable
    (mode = ModeKeep ∨ mode = ModeAppend ∨ mode = ModePrepend ∨ mode = ModeReplace ∨ mode = ""))

/-- The rules whose `From` contains the status, in declaration order. -/
def matching (status : Int) (rules : List Override) : List Override :=
  rules.filter (fun o => decide (status ∈ o.From))

/-- Every rule of a list applied, one after the other in the order of the
list, without looking at `From`; the first panic ends the pass. -/
def applyInOrder : List Override → Locals → Except Panic Locals
  | [], v => .ok v
  | o :: os, v =>
    match applyOverride v o with
    | .ok v1 => applyInOrder os v1
    | .error p => .error p

/-- A rule touches a header key when the canonical form of a name in its
`RemoveHeaders` or of a key of its `Headers` is that key. -/
def Override.touches (o : Override) (k : String) : Bool :=
  (o.RemoveHeaders.map CanonicalMIMEHeaderKey).contains k ||
    (o.Headers.map (fun e => CanonicalMIMEHeaderKey e.1)).contains k

/-- The plugin with another rule list. -/
def Plugin.withRules (a : Plugin) (rules : List Override) : Plugin :=
  { a with config := { a.config with Overrides := rules } }

/-- A real writer that accepts every byte it is given. -/
def okWriter (h : Header) : ResponseWriter :=
  { Header := h, Write := fun p => (p.length, none) }

/-- A plugin with the given rules, named `test-plugin` as in the tests. -/
def testPlugin (debug : Bool) (rules : List Override) : Plugin :=
  { next := id, name := "test-plugin", config := { Overrides := rules, Debug := debug } }

/-- The rule of the test dataset `rules mismatch`. -/
def ruleBasic : Override :=
  { From := [503], To := 500,
    Headers := [("Content-Type", ["application/json"]), ("X-Foo", ["bar", "baz"])],
    RemoveHeaders := [], Body := "Test override", Mode := "" }

/-- The captured response of the test dataset `rules mismatch`. -/
def captureMismatch : ResponseWriterWrapper :=
  { ResponseWriter := okWriter (Header.ofList [("Server", ["dummy server"]),
      ("X-Foo", ["initial"]), ("Content-Type", ["text/plain; charset=utf-8"])]),
    body := stringBytes "Client response body", status := 400 }

/-- Rule A of the example `multiple rules`. -/
def ruleFirst : Override :=
  { From := [500], To := 400,
    Headers := [("X-Foo", ["bar", "baz"]), ("Content-Type", ["text/plain"])],
    RemoveHeaders := [], Body := "First step\n", Mode := "replace" }

/-- Rule B of the example `multiple rules`. -/
def ruleSecond : Override :=
  { From := [500], To := 404, Headers := [("X-Foo-2", ["fom"])],
    RemoveHeaders := [], Body := "Second step\n", Mode := "append" }

/-- A captured response with status 500. -/
def capture500 : ResponseWriterWrapper :=
  { ResponseWriter := okWriter (Header.ofList [("Server", ["dummy server"]),
      ("Content-Type", ["text/plain; charset=utf-8"])]),
    body := stringBytes "Some error", status := 500 }

/-- The locals of `changeResponse` on `capture500` after `ruleFirst` applied. -/
def afterFirst : Locals :=
  match applyOverride (bufferValues capture500) ruleFirst with
  | .ok v => v
  | .error _ => bufferValues capture500

/-- A rule keyed on status 400, the `To` of `ruleFirst`. -/
def ruleOn400 : Override :=
  { From := [400], To := 418, Headers := [("X-Chained", ["yes"])],
    RemoveHeaders := [], Body := "chained", Mode := "replace" }

/-- The captured response of the test dataset `basic`. -/
def captureBasic : ResponseWriterWrapper :=
  { ResponseWriter := okWriter (Header.ofList [("Server", ["dummy server"]),
      ("X-Foo", ["initial"]), ("Content-Type", ["text/plain; charset=utf-8"])]),
    body := stringBytes "Client response body", status := 503 }

/-- A captured response whose upstream handler set `Content-Length` itself. -/
def captureWithLength : ResponseWriterWrapper :=
  { ResponseWriter := okWriter (Header.ofList [("Server", ["dummy server"]),
      ("Content-Length", ["20"])]),
    body := stringBytes "Client response body", status := 503 }

/-- A rule that lists `Content-Length` in `Headers`. -/
def ruleSetsLength : Override :=
  { From := [503], To := 500, Headers := [("Content-Length", ["999"])],
    RemoveHeaders := [], Body := "ok", Mode := "" }

/-- A rule whose `Headers` key is written in lower case. -/
def ruleLowerKey : Override :=
  { From := [503], To := 500, Headers := [("x-foo", ["bar"])],
    RemoveHeaders := [], Body := "", Mode := "keep" }

/-- The rule of the test dataset `remove headers`. -/
def ruleRemove : Override :=
  { From := [200], To := 200, Headers := [("X-Foo", ["bar"])],
    RemoveHeaders := ["Server", "Transfer-Encoding", "Content-Encoding"],
    Body := "", Mode := "keep" }

/-- A rule that lists `Content-Length` in `RemoveHeaders`. -/
def ruleRemovesLength : Override :=
  { From := [200], To := 200, Headers := [("X-Foo", ["bar"])],
    RemoveHeaders := ["Server", "Content-Length"], Body := "", Mode := "keep" }

/-- The captured response of the test dataset `remove headers`. -/
def capture200 : ResponseWriterWrapper :=
  { ResponseWriter := okWriter (Header.ofList [("Server", ["dummy server"]),
      ("Content-Type", ["text/plain"]), ("Transfer-Encoding", ["chunked"]),
      ("Content-Encoding", ["gzip"])]),
    body := stringBytes "Client response", status := 200 }

/-- A captured response with status 200 and an upstream `Content-Length`. -/
def capture200WithLength : ResponseWriterWrapper :=
  { ResponseWriter := okWriter (Header.ofList [("Server", ["dummy server"]),
      ("Content-Length", ["15"])]),
    body := stringBytes "Client response", status := 200 }

/-- The rule of the test dataset `prepend mode`. -/
def rulePrepend : Override :=
  { From := [500], To := 200, Headers := [("Content-Type", ["text/plain"])],
    RemoveHeaders := [], Body := "Everything is fine\n", Mode := "prepend" }

/-- The rule of the test dataset `keep mode`. -/
def ruleKeep : Override :=
  { From := [500], To := 400,
    Headers := [("X-Foo", ["bar", "baz"]), ("Content-Type", ["text/plain"])],
    RemoveHeaders := [], Body := "Body will not be replaced with this", Mode := "keep" }

/-- A second rule in `keep` mode on status 500. -/
def ruleKeepTeapot : Override :=
  { From := [500, 502], To := 418, Headers := [], RemoveHeaders := ["Server"],
    Body := "ignored", Mode := "keep" }

/-- The messages handed to the `Alert` sink, in order. -/
def alertsOf (calls : List Call) : List String :=
  calls.filterMap (fun c => match c with
    | .Alert msg => some msg
    | _ => none)

/-- The fallback responses attempted with `http.Error`, in order. -/
def fallbacksOf (calls : List Call) : List (String × Int) :=
  calls.filterMap (fun c => match c with
    | .Error error code => some (error, code)
    | _ => none)

/-- The status declarations made on the real writer, in order. -/
def declaredOf (calls : List Call) : List Int :=
  calls.filterMap (fun c => match c with
    | .WriteHeader statusCode => some statusCode
    | _ => none)

/-- The locals of `changeResponse` when the rule loop ends (the buffered
values when it panics). -/
def afterLoop (wrapper : ResponseWriterWrapper) (a : Plugin) : Locals :=
  match rangeOverrides wrapper.status a.config.Overrides (bufferValues wrapper) with
  | .ok v => v
  | .error _ => bufferValues wrapper

/-- A real writer whose `Write` fails with `broken pipe` after no byte. -/
def brokenWriter (h : Header) : ResponseWriter :=
  { Header := h, Write := fun _ => (0, some "broken pipe") }

/-- A captured response with status 500 in front of a broken writer. -/
def capture500Broken : ResponseWriterWrapper :=
  { ResponseWriter := brokenWriter (Header.ofList [("Server", ["dummy server"])]),
    body := stringBytes "Some error", status := 500 }

/-- A captured response that already carries the marker header, as left by
another instance of the plugin further up the chain. -/
def captureMarked : ResponseWriterWrapper :=
  { ResponseWriter := okWriter (Header.ofList [("Server", ["dummy server"]),
      ("X-Applied-Plugin", ["inner-plugin"])]),
    body := stringBytes "Client response body", status := 400 }

/-- A rule with a mode the `switch` has no case for. -/
def ruleBadMode : Override :=
  { From := [500], To := 502, Headers := [("X-Foo", ["bar"])], RemoveHeaders := ["Server"],
    Body := "never written", Mode := "merge" }

/-- A rule whose `From` is empty. -/
def ruleEmptyFrom : Override :=
  { From := [], To := 500, Headers := [("X-Foo", ["bar"])], RemoveHeaders := ["Server"],
    Body := "never written", Mode := "replace" }

/-- An upstream handler that declares 500, then 200, then writes a body. -/
def declareTwice (w : ResponseWriterWrapper) : ResponseWriterWrapper :=
  (((w.WriteHeader 500).WriteHeader 200).Write (stringBytes "upstream")).1

/-- A plugin behind which the upstream handler is `declareTwice`. -/
def twicePlugin (rules : List Override) : Plugin :=
  { next := declareTwice, name := "test-plugin", config := { Overrides := rules, Debug := false } }

/-- A rule on status 500 that turns it into 404. -/
def ruleOn500 : Override :=
  { From := [500], To := 404, Headers := [], RemoveHeaders := [],
    Body := "not found", Mode := "replace" }

/-- The working body when the rule loop ends, `none` when it panicked. -/
def loopBody (r : Except Panic Locals) : Option (List UInt8) :=
  match r with
  | .ok v => some v.body
  | .error _ => none

/-- An upstream handler that writes a body and never declares a status. -/
def writeOnly (w : ResponseWriterWrapper) : ResponseWriterWrapper :=
  ((w.Write (stringBytes "Client ")).1.Write (stringBytes "response")).1

/-- A rule on status 200. -/
def ruleOn200 : Override :=
  { From := [200], To := 201, Headers := [("X-Foo", ["bar"])], RemoveHeaders := ["Server"],
    Body := "created", Mode := "replace" }

/-- A plugin behind which the upstream handler is `writeOnly`. -/
def writeOnlyPlugin (rules : List Override) : Plugin :=
  { next := writeOnly, name := "test-plugin", config := { Overrides := rules, Debug := false } }

/-- The capture after the upstream handler wrote the byte slices of a list,
one `Write` each. -/
def writeAll (ds : List (List UInt8)) (w : ResponseWriterWrapper) : ResponseWriterWrapper :=
  ds.foldl (fun w d => (w.Write d).1) w

/-- An upstream handler that writes `ds0`, declares `c1`, writes `ds1`,
declares `c2`, writes `ds2` and returns. -/
def declareBoth (c1 c2 : Int) (ds0 ds1 ds2 : List (List UInt8)) (w : ResponseWriterWrapper) :
    ResponseWriterWrapper :=
  writeAll ds2 ((writeAll ds1 ((writeAll ds0 w).WriteHeader c1)).WriteHeader c2)

/-- The same upstream handler without its first declaration: it writes `ds0`
and `ds1`, declares `c2`, writes `ds2` and returns. -/
def declareLast (c2 : Int) (ds0 ds1 ds2 : List (List UInt8)) (w : ResponseWriterWrapper) :
    ResponseWriterWrapper :=
  writeAll ds2 ((writeAll ds1 (writeAll ds0 w)).WriteHeader c2)

/-- The capture `ServeHTTP` hands to the upstream handler, in front of a
writer that accepts everything. -/
def freshCapture : ResponseWriterWrapper :=
  { ResponseWriter := okWriter (Header.ofList []), body := [], status := 0 }

/-! ## Lemmas on the model -/

theorem canonical_contentLength : CanonicalMIMEHeaderKey "Content-Length" = "Content-Length" := by
  decide

theorem canonical_marker : CanonicalMIMEHeaderKey "X-Applied-Plugin" = "X-Applied-Plugin" := by
  decide

theorem emit_headers (rw : ResponseWriter) (debug : Bool) (statusCode : Int) (headers : Header)
    (body : List UInt8) : (emit rw debug statusCode headers body).headers = headers := by
  unfold emit
  simp only
  split
  · split
    · rfl
    · split <;> rfl
  · rfl

theorem emit_status (rw : ResponseWriter) (debug : Bool) (statusCode : Int) (headers : Header)
    (body : List UInt8) : (emit rw debug statusCode headers body).status = some statusCode := by
  unfold emit
  simp only
  split
  · split
    · simp [Outcome.status]
    · split <;> simp [Outcome.status]
  · simp [Outcome.status]

theorem emit_body (rw : ResponseWriter) (debug : Bool) (statusCode : Int) (headers : Header)
    (body : List UInt8) : (emit rw debug statusCode headers body).body = body := by
  unfold emit
  simp only
  split
  · split
    · simp [Outcome.body]
    · split <;> cases debug <;> simp [Outcome.body]
  · rename_i hlen
    have hb : body = [] := by
      cases body with
      | nil => rfl
      | cons x xs => simp at hlen
    subst hb
    cases debug <;> simp [Outcome.body]

theorem changeResponse_of_ok (wrapper : ResponseWriterWrapper) (a : Plugin) (v : Locals)
    (h : rangeOverrides wrapper.status a.config.Overrides (bufferValues wrapper) = .ok v) :
    changeResponse wrapper a =
      emit wrapper.ResponseWriter a.config.Debug v.statusCode (finalHeaders v a) v.body := by
  unfold changeResponse
  simp only [h]

theorem ok_of_panic_none (wrapper : ResponseWriterWrapper) (a : Plugin)
    (h : (changeResponse wrapper a).panic = none) :
    ∃ v, rangeOverrides wrapper.status a.config.Overrides (bufferValues wrapper) = .ok v := by
  unfold changeResponse at h
  generalize rangeOverrides wrapper.status a.config.Overrides (bufferValues wrapper) = r at h
  cases r with
  | error p => simp at h
  | ok v => exact ⟨v, rfl⟩

theorem rangeOverrides_of_no_match (status : Int) (rules : List Override) (v : Locals)
    (h : ∀ o ∈ rules, status ∉ o.From) : rangeOverrides status rules v = .ok v := by
  induction rules with
  | nil => rfl
  | cons o os ih =>
    have ho : status ∉ o.From := h o (List.mem_cons_self _ _)
    simp only [rangeOverrides, ho, if_false]
    exact ih (fun o1 h1 => h o1 (List.mem_cons_of_mem _ h1))

theorem rangeOverrides_append (status : Int) (xs ys : List Override) (v : Locals) :
    rangeOverrides status (xs ++ ys) v =
      match rangeOverrides status xs v with
      | .ok v1 => rangeOverrides status ys v1
      | .error p => .error p := by
  induction xs generalizing v with
  | nil => rfl
  | cons o os ih =>
    simp only [List.cons_append, rangeOverrides]
    split
    · cases applyOverride v o with
      | ok v1 => exact ih v1
      | error p => rfl
    · exact ih v

theorem switchMode_supported (body : List UInt8) (o : Override) (h : SupportedMode o.Mode) :
    ∃ b, switchMode body o = .ok b := by
  unfold switchMode
  split_ifs with h1 h2 h3 h4
  · exact ⟨_, rfl⟩
  · exact ⟨_, rfl⟩
  · exact ⟨_, rfl⟩
  · exact ⟨_, rfl⟩
  · exfalso
    rcases h with h | h | h | h | h
    · exact h1 h
    · exact h2 h
    · exact h3 h
    · exact h4 (Or.inl h)
    · exact h4 (Or.inr h)

theorem applyOverride_supported (v : Locals) (o : Override) (h : SupportedMode o.Mode) :
    ∃ v1, applyOverride v o = .ok v1 ∧ v1.statusCode = o.To ∧ v1.appliedOverride = true := by
  obtain ⟨b, hb⟩ := switchMode_supported v.body o h
  unfold applyOverride
  simp only [hb]
  exact ⟨_, rfl, rfl, rfl⟩

theorem rangeOverrides_eq_applyInOrder (status : Int) (rules : List Override) (v : Locals) :
    rangeOverrides status rules v = applyInOrder (matching status rules) v := by
  induction rules generalizing v with
  | nil => rfl
  | cons o os ih =>
    by_cases ho : status ∈ o.From
    · simp only [rangeOverrides, ho, if_true, matching, List.filter_cons, decide_True,
        applyInOrder]
      cases applyOverride v o with
      | ok v1 => exact ih v1
      | error p => rfl
    · simp only [rangeOverrides, ho, if_false, matching, List.filter_cons, decide_False]
      exact ih v

theorem applyInOrder_supported (rules : List Override) (v : Locals)
    (h : ∀ o ∈ rules, SupportedMode o.Mode) :
    ∃ v1, applyInOrder rules v = .ok v1 ∧
      v1.statusCode = ((rules.getLast?).map Override.To).getD v.statusCode := by
  induction rules generalizing v with
  | nil => exact ⟨v, rfl, rfl⟩
  | cons o os ih =>
    obtain ⟨v1, h1, hs, _⟩ := applyOverride_supported v o (h o (List.mem_cons_self _ _))
    obtain ⟨v2, h2, hs2⟩ := ih v1 (fun o1 ho1 => h o1 (List.mem_cons_of_mem _ ho1))
    refine ⟨v2, ?_, ?_⟩
    · simp only [applyInOrder, h1, h2]
    · rw [hs2, hs]
      cases os with
      | nil => rfl
      | cons o2 t =>
        obtain ⟨x, hx⟩ : ∃ x, (o2 :: t).getLast? = some x :=
          ⟨(o2 :: t).getLast (by simp), List.getLast?_eq_getLast _ _⟩
        rw [List.getLast?_cons_cons, hx]
        rfl

theorem applyOverride_ok_headers (v v1 : Locals) (o : Override)
    (h : applyOverride v o = .ok v1) : v1.headers = editHeaders v.headers o := by
  unfold applyOverride at h
  cases hs : switchMode v.body o with
  | ok b =>
    simp only [hs] at h
    injection h with h
    rw [← h]
  | error m => simp [hs] at h

theorem rangeOverrides_preserves (P : Header → Prop) (status : Int) (rules : List Override)
    (hstep : ∀ o ∈ rules, status ∈ o.From → ∀ h, P h → P (editHeaders h o))
    (v v1 : Locals) (hv : P v.headers) (hr : rangeOverrides status rules v = .ok v1) :
    P v1.headers := by
  induction rules generalizing v with
  | nil =>
    simp only [rangeOverrides] at hr
    injection hr with hr
    rw [← hr]
    exact hv
  | cons o os ih =>
    have hos : ∀ o1 ∈ os, status ∈ o1.From → ∀ h, P h → P (editHeaders h o1) :=
      fun o1 h1 => hstep o1 (List.mem_cons_of_mem _ h1)
    by_cases ho : status ∈ o.From
    · simp only [rangeOverrides, ho, if_true] at hr
      cases ha : applyOverride v o with
      | ok v2 =>
        simp only [ha] at hr
        refine ih hos v2 ?_ hr
        rw [applyOverride_ok_headers v v2 o ha]
        exact hstep o (List.mem_cons_self _ _) ho _ hv
      | error p => simp [ha] at hr
    · simp only [rangeOverrides, ho, if_false] at hr
      exact ih hos v hv hr

theorem rangeOverrides_split (status : Int) (pre post : List Override) (o : Override)
    (v v3 : Locals) (ho : status ∈ o.From)
    (hr : rangeOverrides status (pre ++ o :: post) v = .ok v3) :
    ∃ v1 v2, rangeOverrides status pre v = .ok v1 ∧ applyOverride v1 o = .ok v2 ∧
      rangeOverrides status post v2 = .ok v3 := by
  rw [rangeOverrides_append] at hr
  cases h1 : rangeOverrides status pre v with
  | error p => simp [h1] at hr
  | ok v1 =>
    simp only [h1, rangeOverrides, ho, if_true] at hr
    cases h2 : applyOverride v1 o with
    | error p => simp [h2] at hr
    | ok v2 =>
      simp only [h2] at hr
      exact ⟨v1, v2, rfl, h2, hr⟩

theorem foldl_Del_of_ne (names : List String) (h : Header) (c : String)
    (hne : ∀ n ∈ names, CanonicalMIMEHeaderKey n ≠ c) :
    (names.foldl Header.Del h) c = h c := by
  induction names generalizing h with
  | nil => rfl
  | cons n ns ih =>
    simp only [List.foldl_cons]
    rw [ih _ (fun n1 h1 => hne n1 (List.mem_cons_of_mem _ h1))]
    have h0 : ¬ (c = CanonicalMIMEHeaderKey n) := fun e => hne n (List.mem_cons_self _ _) e.symm
    simp [Header.Del, h0]

theorem foldl_Del_none (names : List String) (h : Header) (c : String) (hc : h c = none) :
    (names.foldl Header.Del h) c = none := by
  induction names generalizing h with
  | nil => exact hc
  | cons n ns ih =>
    simp only [List.foldl_cons]
    apply ih
    simp only [Header.Del]
    split
    · rfl
    · exact hc

theorem foldl_Del_mem (names : List String) (h : Header) (n : String) (hn : n ∈ names) :
    (names.foldl Header.Del h) (CanonicalMIMEHeaderKey n) = none := by
  induction names generalizing h with
  | nil => simp at hn
  | cons m ms ih =>
    simp only [List.foldl_cons]
    rcases List.mem_cons.mp hn with hm | hm
    · subst hm
      apply foldl_Del_none
      simp [Header.Del]
    · exact ih _ hm

theorem foldl_Add_of_ne (hv : List String) (h : Header) (k c : String)
    (hne : CanonicalMIMEHeaderKey k ≠ c) :
    (hv.foldl (fun h v => Header.Add h k v) h) c = h c := by
  induction hv generalizing h with
  | nil => rfl
  | cons x xs ih =>
    simp only [List.foldl_cons]
    rw [ih]
    have h0 : ¬ (c = CanonicalMIMEHeaderKey k) := fun e => hne e.symm
    simp [Header.Add, h0]

theorem foldl_Add_self (hv : List String) (h : Header) (k : String) :
    (hv.foldl (fun h v => Header.Add h k v) h) (CanonicalMIMEHeaderKey k) =
      if hv = [] then h (CanonicalMIMEHeaderKey k)
      else some ((h (CanonicalMIMEHeaderKey k)).getD [] ++ hv) := by
  induction hv generalizing h with
  | nil => rfl
  | cons x xs ih =>
    simp only [List.foldl_cons]
    rw [ih]
    by_cases hx : xs = []
    · simp [hx, Header.Add]
    · simp [hx, Header.Add]

theorem setHeader_of_ne (h : Header) (k c : String) (hv : List String)
    (hne : CanonicalMIMEHeaderKey k ≠ c) : setHeader h k hv c = h c := by
  unfold setHeader
  rw [foldl_Add_of_ne _ _ _ _ hne]
  have h0 : ¬ (c = CanonicalMIMEHeaderKey k) := fun e => hne e.symm
  split
  · simp [Header.Del, h0]
  · rfl

theorem setHeader_self (h : Header) (k : String) (hv : List String)
    (hk : CanonicalMIMEHeaderKey k = k) :
    setHeader h k hv k = if hv = [] then none else some hv := by
  unfold setHeader
  have key := foldl_Add_self hv (if (h k).isSome then Header.Del h k else h) k
  rw [hk] at key
  rw [key]
  have h1 : (if (h k).isSome then Header.Del h k else h) k = none := by
    split
    · simp [Header.Del, hk]
    · rename_i hs
      simpa using hs
  rw [h1]
  simp

theorem foldl_setHeader_of_ne (es : List (String × List String)) (h : Header) (c : String)
    (hne : ∀ e ∈ es, CanonicalMIMEHeaderKey e.1 ≠ c) :
    (es.foldl (fun h e => setHeader h e.1 e.2) h) c = h c := by
  induction es generalizing h with
  | nil => rfl
  | cons e rest ih =>
    simp only [List.foldl_cons]
    rw [ih _ (fun e1 h1 => hne e1 (List.mem_cons_of_mem _ h1))]
    exact setHeader_of_ne _ _ _ _ (hne e (List.mem_cons_self _ _))

theorem editHeaders_untouched (h : Header) (o : Override) (c : String)
    (ht : o.touches c = false) : editHeaders h o c = h c := by
  unfold Override.touches at ht
  simp only [Bool.or_eq_false_iff, List.contains_eq_any_beq, List.any_eq_false,
    List.mem_map, forall_exists_index, and_imp, forall_apply_eq_imp_iff₂, beq_iff_eq] at ht
  unfold editHeaders
  rw [foldl_setHeader_of_ne _ _ _ (fun e he => fun e1 => ht.2 e he e1.symm)]
  exact foldl_Del_of_ne _ _ _ (fun n hn => fun e1 => ht.1 n hn e1.symm)

theorem finalHeaders_contentLength (v : Locals) (a : Plugin) :
    finalHeaders v a "Content-Length" = some [Itoa v.body.length] := by
  unfold finalHeaders
  split
  · have hne : ¬ ("Content-Length" = CanonicalMIMEHeaderKey "X-Applied-Plugin") := by decide
    simp [Header.Add, Header.Set, canonical_contentLength, hne]
  · simp [Header.Set, canonical_contentLength]

theorem finalHeaders_other (v : Locals) (a : Plugin) (c : String) (h1 : c ≠ "Content-Length")
    (h2 : c ≠ "X-Applied-Plugin" ∨ a.config.Debug = false) :
    finalHeaders v a c = v.headers c := by
  unfold finalHeaders
  split
  · rename_i hd
    have hm : c ≠ "X-Applied-Plugin" := by
      rcases h2 with h2 | h2
      · exact h2
      · simp [h2] at hd
    simp [Header.Add, Header.Set, canonical_contentLength, canonical_marker, h1, hm]
  · simp [Header.Set, canonical_contentLength, h1]

theorem stringBytes_length (s : String) : (stringBytes s).length = s.utf8ByteSize := by
  unfold stringBytes
  rw [← String.size_toUTF8 s]
  simp [ByteArray.size]

theorem rangeOverrides_single (status : Int) (rules : List Override) (o : Override) (v : Locals)
    (h : matching status rules = [o]) : rangeOverrides status rules v = applyOverride v o := by
  rw [rangeOverrides_eq_applyInOrder, h]
  simp only [applyInOrder]
  cases applyOverride v o <;> rfl

theorem switchMode_replace (body : List UInt8) (o : Override)
    (h : o.Mode = ModeReplace ∨ o.Mode = "") : switchMode body o = .ok (stringBytes o.Body) := by
  unfold switchMode
  rcases h with h | h <;> rw [h] <;> simp [ModeKeep, ModeAppend, ModePrepend, ModeReplace]

theorem switchMode_append (body : List UInt8) (o : Override) (h : o.Mode = ModeAppend) :
    switchMode body o = .ok (body ++ stringBytes o.Body) := by
  unfold switchMode
  rw [h]
  simp [ModeKeep, ModeAppend]

theorem switchMode_prepend (body : List UInt8) (o : Override) (h : o.Mode = ModePrepend) :
    switchMode body o = .ok (stringBytes o.Body ++ body) := by
  unfold switchMode
  rw [h]
  simp [ModeKeep, ModeAppend, ModePrepend]

theorem switchMode_keep (body : List UInt8) (o : Override) (h : o.Mode = ModeKeep) :
    switchMode body o = .ok body := by
  unfold switchMode
  rw [h]
  simp

theorem applyOverride_of_switchMode (v : Locals) (o : Override) (b : List UInt8)
    (h : switchMode v.body o = .ok b) :
    applyOverride v o =
      .ok { statusCode := o.To, headers := editHeaders v.headers o, body := b,
            appliedOverride := true } := by
  unfold applyOverride
  simp only [h]

theorem applyOverride_mode_default (v : Locals) (r : Override) :
    applyOverride v { r with Mode := "" } = applyOverride v { r with Mode := ModeReplace } := by
  rw [applyOverride_of_switchMode v _ _ (switchMode_replace v.body _ (Or.inr rfl)),
    applyOverride_of_switchMode v _ _ (switchMode_replace v.body _ (Or.inl rfl))]
  rfl

theorem applyInOrder_keep (rules : List Override) (v : Locals)
    (h : ∀ o ∈ rules, o.Mode = ModeKeep) :
    ∃ v1, applyInOrder rules v = .ok v1 ∧ v1.body = v.body ∧
      v1.headers = rules.foldl editHeaders v.headers ∧
      v1.statusCode = ((rules.getLast?).map Override.To).getD v.statusCode := by
  induction rules generalizing v with
  | nil => exact ⟨v, rfl, rfl, rfl, rfl⟩
  | cons o os ih =>
    have h1 := applyOverride_of_switchMode v o _
      (switchMode_keep v.body o (h o (List.mem_cons_self _ _)))
    obtain ⟨v2, h2, hb, hh, hs⟩ :=
      ih ({ statusCode := o.To, headers := editHeaders v.headers o, body := v.body,
            appliedOverride := true } : Locals)
        (fun o1 ho1 => h o1 (List.mem_cons_of_mem _ ho1))
    refine ⟨v2, ?_, hb, hh, ?_⟩
    · simp only [applyInOrder, h1, h2]
    · rw [hs]
      cases os with
      | nil => rfl
      | cons o2 t =>
        obtain ⟨x, hx⟩ : ∃ x, (o2 :: t).getLast? = some x :=
          ⟨(o2 :: t).getLast (by simp), List.getLast?_eq_getLast _ _⟩
        rw [List.getLast?_cons_cons, hx]
        rfl

/-! ## The claims -/

/-- C1: when no rule lists the captured status in `From`, `changeResponse`
declares the captured status, hands the captured body on unchanged, and the
header map is the captured one except that `Content-Length` holds the single
value that is the decimal byte length of the body; the debug flag and the
plugin name play no role. -/
theorem no_match_passthrough (wrapper : ResponseWriterWrapper) (a : Plugin)
    (h : ∀ o ∈ a.config.Overrides, wrapper.status ∉ o.From) :
    (changeResponse wrapper a).status = some wrapper.status ∧
    (changeResponse wrapper a).body = wrapper.body ∧
    (changeResponse wrapper a).headers =
      (fun k => if k = "Content-Length" then some [Itoa wrapper.body.length]
                else wrapper.ResponseWriter.Header k) := by
  have hr := rangeOverrides_of_no_match wrapper.status a.config.Overrides (bufferValues wrapper) h
  rw [changeResponse_of_ok wrapper a _ hr, emit_status, emit_body, emit_headers]
  refine ⟨rfl, rfl, ?_⟩
  funext k
  simp [finalHeaders, bufferValues, Header.Set, canonical_contentLength]

theorem no_match_passthrough_witness :
    (changeResponse captureMismatch (testPlugin true [ruleBasic])).status = some 400 ∧
    (changeResponse captureMismatch (testPlugin true [ruleBasic])).body
      = stringBytes "Client response body" ∧
    (changeResponse captureMismatch (testPlugin true [ruleBasic])).headers =
      (fun k => if k = "Content-Length" then some ["20"]
                else captureMismatch.ResponseWriter.Header k) :=
  no_match_passthrough captureMismatch (testPlugin true [ruleBasic]) (by decide)

/-- C2: whenever `changeResponse` does not panic, the header map holds under
`Content-Length` exactly one value, the decimal rendering of the number of
bytes of the body handed to the real writer, whatever the upstream handler or
a rule stored, removed or added under that name. -/
theorem content_length_recomputed (wrapper : ResponseWriterWrapper) (a : Plugin)
    (h : (changeResponse wrapper a).panic = none) :
    (changeResponse wrapper a).headers "Content-Length"
      = some [Itoa (changeResponse wrapper a).body.length] ∧
    Header.Values (changeResponse wrapper a).headers "Content-Length"
      = [Itoa (changeResponse wrapper a).body.length] := by
  obtain ⟨v, hv⟩ := ok_of_panic_none wrapper a h
  rw [changeResponse_of_ok wrapper a v hv, emit_body, emit_headers]
  have key := finalHeaders_contentLength v a
  refine ⟨key, ?_⟩
  simp [Header.Values, canonical_contentLength, key]

theorem content_length_recomputed_witness :
    (changeResponse captureWithLength (testPlugin true [ruleSetsLength])).headers "Content-Length"
      = some [Itoa (changeResponse captureWithLength
          (testPlugin true [ruleSetsLength])).body.length] ∧
    Header.Values (changeResponse captureWithLength (testPlugin true [ruleSetsLength])).headers
        "Content-Length"
      = [Itoa (changeResponse captureWithLength (testPlugin true [ruleSetsLength])).body.length] :=
  content_length_recomputed captureWithLength (testPlugin true [ruleSetsLength]) (by decide)

/-- C3: with supported modes on the matching rules, the rule loop ends
without a panic in the state reached by applying every rule whose `From`
contains the captured status, one after the other in declaration order; the
declared status is the `To` of the last such rule (the captured status when
there is none), and the emitted body and header map are those of that state. -/
theorem matching_rules_apply_in_order (wrapper : ResponseWriterWrapper) (a : Plugin)
    (h : ∀ o ∈ a.config.Overrides, wrapper.status ∈ o.From → SupportedMode o.Mode) :
    ∃ v, rangeOverrides wrapper.status a.config.Overrides (bufferValues wrapper) = .ok v ∧
      applyInOrder (matching wrapper.status a.config.Overrides) (bufferValues wrapper) = .ok v ∧
      (changeResponse wrapper a).status =
        some ((((matching wrapper.status a.config.Overrides).getLast?).map Override.To).getD
          wrapper.status) ∧
      (changeResponse wrapper a).body = v.body ∧
      (changeResponse wrapper a).headers = finalHeaders v a := by
  have hm : ∀ o ∈ matching wrapper.status a.config.Overrides, SupportedMode o.Mode := by
    intro o ho
    have ho1 := List.mem_filter.mp ho
    exact h o ho1.1 (by simpa using ho1.2)
  obtain ⟨v, hv, hs⟩ := applyInOrder_supported _ (bufferValues wrapper) hm
  have hr : rangeOverrides wrapper.status a.config.Overrides (bufferValues wrapper) = .ok v := by
    rw [rangeOverrides_eq_applyInOrder, hv]
  refine ⟨v, hr, hv, ?_, ?_, ?_⟩
  · rw [changeResponse_of_ok wrapper a v hr, emit_status, hs]
    rfl
  · rw [changeResponse_of_ok wrapper a v hr, emit_body]
  · rw [changeResponse_of_ok wrapper a v hr, emit_headers]

theorem matching_rules_apply_in_order_witness :
    (changeResponse capture500 (testPlugin false [ruleFirst, ruleSecond])).status = some 404 ∧
    (changeResponse capture500 (testPlugin false [ruleFirst, ruleSecond])).body
      = stringBytes "First step\nSecond step\n" := by
  obtain ⟨v, _, _, hs, _, _⟩ :=
    matching_rules_apply_in_order capture500 (testPlugin false [ruleFirst, ruleSecond])
      (by decide)
  exact ⟨hs.trans (by decide), by decide⟩

/-- C4: whether a rule fires is decided by the status captured at entry
alone.  After any rules `pre` have run and left the locals `v1` (with whatever
working status `v1.statusCode`), a rule whose `From` does not contain the
captured status is skipped, also when `From` contains the working status;
and a rule whose `From` contains the captured status is applied to `v1`,
also when `From` does not contain the working status. -/
theorem match_on_captured_status (status : Int) (pre post : List Override) (o : Override)
    (v v1 : Locals) (hpre : rangeOverrides status pre v = .ok v1) :
    (status ∉ o.From →
      rangeOverrides status (pre ++ o :: post) v = rangeOverrides status post v1) ∧
    (status ∈ o.From →
      rangeOverrides status (pre ++ o :: post) v =
        match applyOverride v1 o with
        | .ok v2 => rangeOverrides status post v2
        | .error p => .error p) := by
  rw [rangeOverrides_append, hpre]
  constructor
  · intro ho
    simp only [rangeOverrides, ho, if_false]
  · intro ho
    simp only [rangeOverrides, ho, if_true]

theorem match_on_captured_status_witness :
    (afterFirst.statusCode = 400 ∧ (400 : Int) ∈ ruleOn400.From ∧ (500 : Int) ∉ ruleOn400.From ∧
      rangeOverrides 500 ([ruleFirst] ++ ruleOn400 :: [ruleSecond]) (bufferValues capture500)
        = rangeOverrides 500 [ruleSecond] afterFirst) ∧
    (afterFirst.statusCode ∉ ruleSecond.From ∧ (500 : Int) ∈ ruleSecond.From ∧
      rangeOverrides 500 ([ruleFirst] ++ ruleSecond :: []) (bufferValues capture500)
        = match applyOverride afterFirst ruleSecond with
          | .ok v2 => rangeOverrides 500 [] v2
          | .error p => .error p) :=
  ⟨⟨by decide, by decide, by decide,
      (match_on_captured_status 500 [ruleFirst] [ruleSecond] ruleOn400 (bufferValues capture500)
        afterFirst rfl).1 (by decide)⟩,
    ⟨by decide, by decide,
      (match_on_captured_status 500 [ruleFirst] [] ruleSecond (bufferValues capture500)
        afterFirst rfl).2 (by decide)⟩⟩

/-- C5, the claim as stated fails: a matching rule lists `Content-Length`,
which the upstream response already carries, with the value list `["999"]`,
no later rule exists, and the emitted value list under that name is `["2"]`,
the length of the final body. -/
theorem set_header_content_length_counterexample :
    (503 : Int) ∈ ruleSetsLength.From ∧
    ("Content-Length", ["999"]) ∈ ruleSetsLength.Headers ∧
    captureWithLength.ResponseWriter.Header "Content-Length" = some ["20"] ∧
    (changeResponse captureWithLength (testPlugin false [ruleSetsLength])).panic = none ∧
    Header.Values (changeResponse captureWithLength (testPlugin false [ruleSetsLength])).headers
      "Content-Length" = ["2"] ∧
    Header.Values (changeResponse captureWithLength (testPlugin false [ruleSetsLength])).headers
      "Content-Length" ≠ ["999"] := by
  decide

/-- The raw index `headers[k]` misses a header stored under the canonical
form of a lower-case rule key: the rule's values are added to the upstream
ones instead of replacing them. -/
theorem lower_case_rule_key_merges :
    Header.Values (changeResponse captureBasic (testPlugin false [ruleLowerKey])).headers "x-foo"
      = ["initial", "bar"] := by
  decide

/-- C5, amended: a matching rule lists `k` in `Headers` with the value list
`hv`, where `k` is in canonical form, no other key of the rule has `k` as its
canonical form, no later matching rule touches `k`, and `k` is neither
`Content-Length` nor, in debug mode, `X-Applied-Plugin`.  If the pass does not
panic, the emitted value list for `k` is exactly `hv`, whatever was stored
under `k` before. -/
theorem set_header_replaces (wrapper : ResponseWriterWrapper) (a : Plugin)
    (R1 R2 : List Override) (o : Override) (P Q : List (String × List String))
    (k : String) (hv : List String)
    (hrules : a.config.Overrides = R1 ++ o :: R2)
    (hmatch : wrapper.status ∈ o.From)
    (hH : o.Headers = P ++ (k, hv) :: Q)
    (hcanon : CanonicalMIMEHeaderKey k = k)
    (huniq : ∀ e ∈ P ++ Q, CanonicalMIMEHeaderKey e.1 ≠ k)
    (hlater : ∀ o1 ∈ R2, wrapper.status ∈ o1.From → o1.touches k = false)
    (hCL : k ≠ "Content-Length")
    (hmark : k ≠ "X-Applied-Plugin" ∨ a.config.Debug = false)
    (hok : (changeResponse wrapper a).panic = none) :
    Header.Values (changeResponse wrapper a).headers k = hv := by
  obtain ⟨v, hv0⟩ := ok_of_panic_none wrapper a hok
  rw [changeResponse_of_ok wrapper a v hv0, emit_headers]
  rw [hrules] at hv0
  obtain ⟨v1, v2, _, h2, h3⟩ := rangeOverrides_split _ _ _ _ _ _ hmatch hv0
  have hset : v2.headers k = if hv = [] then none else some hv := by
    rw [applyOverride_ok_headers v1 v2 o h2]
    unfold editHeaders
    rw [hH, List.foldl_append, List.foldl_cons]
    rw [foldl_setHeader_of_ne _ _ _
      (fun e he => huniq e (List.mem_append.mpr (Or.inr he)))]
    exact setHeader_self _ _ _ hcanon
  have hkeep : v.headers k = if hv = [] then none else some hv :=
    rangeOverrides_preserves (fun h => h k = if hv = [] then none else some hv)
      wrapper.status R2
      (fun o1 ho1 hm h hh => by
        show editHeaders h o1 k = _
        rw [editHeaders_untouched h o1 k (hlater o1 ho1 hm)]
        exact hh)
      v2 v hset h3
  unfold Header.Values
  rw [hcanon, finalHeaders_other v a k hCL hmark, hkeep]
  by_cases he : hv = []
  · simp [he]
  · simp [he]

theorem set_header_replaces_witness :
    Header.Values (changeResponse captureBasic (testPlugin true [ruleBasic])).headers "X-Foo"
      = ["bar", "baz"] :=
  set_header_replaces captureBasic (testPlugin true [ruleBasic]) [] [] ruleBasic
    [("Content-Type", ["application/json"])] [] "X-Foo" ["bar", "baz"]
    rfl (by decide) rfl (by decide) (by decide) (by decide) (by decide)
    (Or.inl (by decide)) (by decide)

/-- C6, the claim as stated fails: a matching rule lists `Content-Length` in
`RemoveHeaders`, neither it nor a later rule sets that name in `Headers`, and
the emitted header map still holds `Content-Length`. -/
theorem removed_content_length_counterexample :
    (200 : Int) ∈ ruleRemovesLength.From ∧
    "Content-Length" ∈ ruleRemovesLength.RemoveHeaders ∧
    (∀ e ∈ ruleRemovesLength.Headers,
      CanonicalMIMEHeaderKey e.1 ≠ CanonicalMIMEHeaderKey "Content-Length") ∧
    (changeResponse capture200WithLength (testPlugin false [ruleRemovesLength])).panic = none ∧
    (changeResponse capture200WithLength (testPlugin false [ruleRemovesLength])).headers
      (CanonicalMIMEHeaderKey "Content-Length") = some ["15"] := by
  decide

/-- C6, amended: a name listed in `RemoveHeaders` of a rule that matches the
captured status is absent from the emitted header map (no entry under its
canonical form), unless it is set by `Headers` of the same rule or of a later
matching rule, or it is `Content-Length`, or it is `X-Applied-Plugin` in debug
mode; this when the pass does not panic. -/
theorem removed_header_absent (wrapper : ResponseWriterWrapper) (a : Plugin)
    (R1 R2 : List Override) (o : Override) (n : String)
    (hrules : a.config.Overrides = R1 ++ o :: R2)
    (hmatch : wrapper.status ∈ o.From)
    (hn : n ∈ o.RemoveHeaders)
    (hsame : ∀ e ∈ o.Headers, CanonicalMIMEHeaderKey e.1 ≠ CanonicalMIMEHeaderKey n)
    (hlater : ∀ o1 ∈ R2, wrapper.status ∈ o1.From →
      ∀ e ∈ o1.Headers, CanonicalMIMEHeaderKey e.1 ≠ CanonicalMIMEHeaderKey n)
    (hCL : CanonicalMIMEHeaderKey n ≠ "Content-Length")
    (hmark : CanonicalMIMEHeaderKey n ≠ "X-Applied-Plugin" ∨ a.config.Debug = false)
    (hok : (changeResponse wrapper a).panic = none) :
    (changeResponse wrapper a).headers (CanonicalMIMEHeaderKey n) = none ∧
    Header.Values (changeResponse wrapper a).headers n = [] := by
  obtain ⟨v, hv0⟩ := ok_of_panic_none wrapper a hok
  rw [changeResponse_of_ok wrapper a v hv0, emit_headers]
  rw [hrules] at hv0
  obtain ⟨v1, v2, _, h2, h3⟩ := rangeOverrides_split _ _ _ _ _ _ hmatch hv0
  have hdel : v2.headers (CanonicalMIMEHeaderKey n) = none := by
    rw [applyOverride_ok_headers v1 v2 o h2]
    unfold editHeaders
    rw [foldl_setHeader_of_ne _ _ _ hsame]
    exact foldl_Del_mem _ _ _ hn
  have hkeep : v.headers (CanonicalMIMEHeaderKey n) = none :=
    rangeOverrides_preserves (fun h => h (CanonicalMIMEHeaderKey n) = none)
      wrapper.status R2
      (fun o1 ho1 hm h hh => by
        show editHeaders h o1 (CanonicalMIMEHeaderKey n) = none
        unfold editHeaders
        rw [foldl_setHeader_of_ne _ _ _ (hlater o1 ho1 hm)]
        exact foldl_Del_none _ _ _ hh)
      v2 v hdel h3
  have key : finalHeaders v a (CanonicalMIMEHeaderKey n) = none := by
    rw [finalHeaders_other v a _ hCL hmark, hkeep]
  exact ⟨key, by simp [Header.Values, key]⟩

theorem removed_header_absent_witness :
    (changeResponse capture200 (testPlugin true [ruleRemove])).headers
      (CanonicalMIMEHeaderKey "Transfer-Encoding") = none ∧
    Header.Values (changeResponse capture200 (testPlugin true [ruleRemove])).headers
      "Transfer-Encoding" = [] :=
  removed_header_absent capture200 (testPlugin true [ruleRemove]) [] [] ruleRemove
    "Transfer-Encoding" rfl (by decide) (by decide) (by decide) (by decide) (by decide)
    (Or.inl (by decide)) (by decide)

/-- C7: when exactly one rule matches the captured status and its mode is
`replace` or empty, the emitted body is the bytes of the rule's `Body` (the
upstream body is gone, also when `Body` is empty), `Content-Length` is the
decimal byte length of `Body`, and the status is the rule's `To`; and in any
rule list, at any position, a rule with mode `""` and the same rule with mode
`replace` give the same outcome. -/
theorem replace_mode_single (wrapper : ResponseWriterWrapper) (a : Plugin) (o : Override)
    (h1 : matching wrapper.status a.config.Overrides = [o])
    (hm : o.Mode = ModeReplace ∨ o.Mode = "") :
    (changeResponse wrapper a).body = stringBytes o.Body ∧
    (changeResponse wrapper a).headers "Content-Length" = some [Itoa o.Body.utf8ByteSize] ∧
    (changeResponse wrapper a).status = some o.To ∧
    (o.Body = "" → (changeResponse wrapper a).body = []) ∧
    (∀ (R1 R2 : List Override) (r : Override),
      changeResponse wrapper (a.withRules (R1 ++ { r with Mode := "" } :: R2)) =
        changeResponse wrapper (a.withRules (R1 ++ { r with Mode := ModeReplace } :: R2))) := by
  have hr := rangeOverrides_single wrapper.status _ o (bufferValues wrapper) h1
  rw [applyOverride_of_switchMode _ o _ (switchMode_replace _ o hm)] at hr
  rw [changeResponse_of_ok wrapper a _ hr, emit_body, emit_headers, emit_status,
    finalHeaders_contentLength, stringBytes_length]
  refine ⟨rfl, rfl, rfl, ?_, ?_⟩
  · intro hb
    rw [hb]
    rfl
  · intro R1 R2 r
    have hrange : rangeOverrides wrapper.status (R1 ++ { r with Mode := "" } :: R2)
          (bufferValues wrapper) =
        rangeOverrides wrapper.status (R1 ++ { r with Mode := ModeReplace } :: R2)
          (bufferValues wrapper) := by
      rw [rangeOverrides_append, rangeOverrides_append]
      cases rangeOverrides wrapper.status R1 (bufferValues wrapper) with
      | error p => rfl
      | ok v1 =>
        simp only [rangeOverrides]
        rw [applyOverride_mode_default v1 r]
    unfold changeResponse
    simp only [Plugin.withRules]
    rw [hrange]
    rfl

theorem replace_mode_single_witness :
    (changeResponse capture500 (testPlugin false [ruleBasic, ruleFirst])).body
      = stringBytes "First step\n" ∧
    (changeResponse capture500 (testPlugin false [ruleBasic, ruleFirst])).headers "Content-Length"
      = some [Itoa ("First step\n" : String).utf8ByteSize] ∧
    (changeResponse capture500 (testPlugin false [ruleBasic, ruleFirst])).status = some 400 :=
  have h := replace_mode_single capture500 (testPlugin false [ruleBasic, ruleFirst]) ruleFirst
    (by decide) (Or.inl (by decide))
  ⟨h.1, h.2.1, h.2.2.1⟩

/-- C8: when exactly one rule matches the captured status and its mode is
`append`, the emitted body is the captured body followed by the bytes of the
rule's `Body`, and `Content-Length` is the decimal rendering of the sum of the
two byte lengths. -/
theorem append_mode_single (wrapper : ResponseWriterWrapper) (a : Plugin) (o : Override)
    (h1 : matching wrapper.status a.config.Overrides = [o])
    (hm : o.Mode = ModeAppend) :
    (changeResponse wrapper a).body = wrapper.body ++ stringBytes o.Body ∧
    (changeResponse wrapper a).headers "Content-Length"
      = some [Itoa (wrapper.body.length + o.Body.utf8ByteSize)] ∧
    (changeResponse wrapper a).status = some o.To := by
  have hr := rangeOverrides_single wrapper.status _ o (bufferValues wrapper) h1
  rw [applyOverride_of_switchMode _ o _ (switchMode_append _ o hm)] at hr
  rw [changeResponse_of_ok wrapper a _ hr, emit_body, emit_headers, emit_status,
    finalHeaders_contentLength]
  refine ⟨rfl, ?_, rfl⟩
  simp only [List.length_append, stringBytes_length]
  rfl

theorem append_mode_single_witness :
    (changeResponse capture500 (testPlugin false [ruleBasic, ruleSecond])).body
      = stringBytes "Some error" ++ stringBytes "Second step\n" ∧
    (changeResponse capture500 (testPlugin false [ruleBasic, ruleSecond])).headers
        "Content-Length"
      = some [Itoa ((stringBytes "Some error").length + ("Second step\n" : String).utf8ByteSize)] ∧
    (changeResponse capture500 (testPlugin false [ruleBasic, ruleSecond])).status = some 404 :=
  append_mode_single capture500 (testPlugin false [ruleBasic, ruleSecond]) ruleSecond
    (by decide) (by decide)

/-- C9: when exactly one rule matches the captured status and its mode is
`prepend`, the emitted body is the bytes of the rule's `Body` followed by the
captured body, and `Content-Length` is the decimal rendering of the sum of the
two byte lengths. -/
theorem prepend_mode_single (wrapper : ResponseWriterWrapper) (a : Plugin) (o : Override)
    (h1 : matching wrapper.status a.config.Overrides = [o])
    (hm : o.Mode = ModePrepend) :
    (changeResponse wrapper a).body = stringBytes o.Body ++ wrapper.body ∧
    (changeResponse wrapper a).headers "Content-Length"
      = some [Itoa (o.Body.utf8ByteSize + wrapper.body.length)] ∧
    (changeResponse wrapper a).status = some o.To := by
  have hr := rangeOverrides_single wrapper.status _ o (bufferValues wrapper) h1
  rw [applyOverride_of_switchMode _ o _ (switchMode_prepend _ o hm)] at hr
  rw [changeResponse_of_ok wrapper a _ hr, emit_body, emit_headers, emit_status,
    finalHeaders_contentLength]
  refine ⟨rfl, ?_, rfl⟩
  simp only [List.length_append, stringBytes_length]
  rfl

theorem prepend_mode_single_witness :
    (changeResponse capture500 (testPlugin false [rulePrepend])).body
      = stringBytes "Everything is fine\n" ++ stringBytes "Some error" ∧
    (changeResponse capture500 (testPlugin false [rulePrepend])).headers "Content-Length"
      = some [Itoa (("Everything is fine\n" : String).utf8ByteSize
          + (stringBytes "Some error").length)] ∧
    (changeResponse capture500 (testPlugin false [rulePrepend])).status = some 200 :=
  prepend_mode_single capture500 (testPlugin false [rulePrepend]) rulePrepend
    (by decide) (by decide)

/-- C10: when every rule matching the captured status has mode `keep`, the
pass does not panic and the emitted body is the captured body byte for byte,
whatever the rules' `Body` texts are, while the edits of the matching rules
are applied: the header map is the captured one after the header edits of
every matching rule in order (then `Content-Length` and the marker), and the
status is the `To` of the last matching rule. -/
theorem keep_mode_body (wrapper : ResponseWriterWrapper) (a : Plugin)
    (h : ∀ o ∈ a.config.Overrides, wrapper.status ∈ o.From → o.Mode = ModeKeep) :
    (changeResponse wrapper a).body = wrapper.body ∧
    (changeResponse wrapper a).status =
      some ((((matching wrapper.status a.config.Overrides).getLast?).map Override.To).getD
        wrapper.status) ∧
    ∃ v, rangeOverrides wrapper.status a.config.Overrides (bufferValues wrapper) = .ok v ∧
      v.headers = (matching wrapper.status a.config.Overrides).foldl editHeaders
        wrapper.ResponseWriter.Header ∧
      (changeResponse wrapper a).headers = finalHeaders v a := by
  have hm : ∀ o ∈ matching wrapper.status a.config.Overrides, o.Mode = ModeKeep := by
    intro o ho
    have ho1 := List.mem_filter.mp ho
    exact h o ho1.1 (by simpa using ho1.2)
  obtain ⟨v, hv, hb, hh, hs⟩ := applyInOrder_keep _ (bufferValues wrapper) hm
  have hr : rangeOverrides wrapper.status a.config.Overrides (bufferValues wrapper) = .ok v := by
    rw [rangeOverrides_eq_applyInOrder, hv]
  rw [changeResponse_of_ok wrapper a v hr, emit_body, emit_status, emit_headers]
  exact ⟨hb, by rw [hs]; rfl, v, hr, hh, rfl⟩

theorem keep_mode_body_witness :
    (changeResponse capture500 (testPlugin false [ruleKeep, ruleBasic, ruleKeepTeapot])).body
      = stringBytes "Some error" ∧
    (changeResponse capture500 (testPlugin false [ruleKeep, ruleBasic, ruleKeepTeapot])).status
      = some 418 ∧
    (changeResponse capture500 (testPlugin false [ruleKeep, ruleBasic, ruleKeepTeapot])).headers
      "X-Foo" = some ["bar", "baz"] := by
  have h := keep_mode_body capture500 (testPlugin false [ruleKeep, ruleBasic, ruleKeepTeapot])
    (by decide)
  exact ⟨h.1, h.2.1.trans (by decide), by decide⟩

/-! ## The marker header, unsupported modes, construction -/

theorem applyOverride_ok_applied (v v1 : Locals) (o : Override)
    (h : applyOverride v o = .ok v1) : v1.appliedOverride = true := by
  unfold applyOverride at h
  cases hs : switchMode v.body o with
  | ok b =>
    simp only [hs] at h
    injection h with h
    rw [← h]
  | error m => simp [hs] at h

theorem rangeOverrides_applied (status : Int) (rules : List Override) (v v1 : Locals)
    (h : rangeOverrides status rules v = .ok v1) :
    v1.appliedOverride = (v.appliedOverride || rules.any (fun o => decide (status ∈ o.From))) := by
  induction rules generalizing v with
  | nil =>
    simp only [rangeOverrides] at h
    injection h with h
    simp [← h]
  | cons o os ih =>
    by_cases ho : status ∈ o.From
    · simp only [rangeOverrides, ho, if_true] at h
      cases ha : applyOverride v o with
      | ok v2 =>
        simp only [ha] at h
        rw [ih v2 h, applyOverride_ok_applied v v2 o ha]
        simp [ho]
      | error p => simp [ha] at h
    · simp only [rangeOverrides, ho, if_false] at h
      rw [ih v h]
      simp [ho]

theorem finalHeaders_marker (v : Locals) (a : Plugin) :
    finalHeaders v a "X-Applied-Plugin" =
      if v.appliedOverride = true ∧ a.config.Debug = true
      then some ((v.headers "X-Applied-Plugin").getD [] ++ [a.name])
      else v.headers "X-Applied-Plugin" := by
  have hne : ¬ ("X-Applied-Plugin" = "Content-Length") := by decide
  unfold finalHeaders
  by_cases h1 : v.appliedOverride = true <;> by_cases h2 : a.config.Debug = true <;>
    simp [h1, h2, Header.Add, Header.Set, canonical_contentLength, canonical_marker, hne]

/-- C11, the claim as stated fails: the upstream response carries
`X-Applied-Plugin`, no rule matches and `Debug` is off, and the emitted header
map still holds the marker header. -/
theorem marker_passthrough_counterexample :
    (testPlugin false [ruleBasic]).config.Debug = false ∧
    (∀ o ∈ (testPlugin false [ruleBasic]).config.Overrides, captureMarked.status ∉ o.From) ∧
    (changeResponse captureMarked (testPlugin false [ruleBasic])).panic = none ∧
    (changeResponse captureMarked (testPlugin false [ruleBasic])).headers "X-Applied-Plugin"
      = some ["inner-plugin"] := by
  decide

/-- C11, amended: when the pass does not panic, the emitted value list of
`X-Applied-Plugin` is the list the rule loop left under that name with the
plugin name appended when `Debug` is on and some rule's `From` contains the
captured status, and that list unchanged otherwise; the list the rule loop
left is the upstream one when no matching rule touches the name.  So when
the upstream response carries no `X-Applied-Plugin` and no matching rule sets
it in `Headers`, the emitted header map holds the marker header if and only
if `Debug` is on and some rule matches, and its value list is then the plugin
name alone. -/
theorem marker_header (wrapper : ResponseWriterWrapper) (a : Plugin)
    (hok : (changeResponse wrapper a).panic = none) :
    (changeResponse wrapper a).headers "X-Applied-Plugin" =
      (if a.config.Debug = true ∧ ∃ o ∈ a.config.Overrides, wrapper.status ∈ o.From
       then some (((afterLoop wrapper a).headers "X-Applied-Plugin").getD [] ++ [a.name])
       else (afterLoop wrapper a).headers "X-Applied-Plugin") ∧
    ((∀ o ∈ a.config.Overrides, wrapper.status ∈ o.From →
        o.touches "X-Applied-Plugin" = false) →
      (changeResponse wrapper a).headers "X-Applied-Plugin" =
        (if a.config.Debug = true ∧ ∃ o ∈ a.config.Overrides, wrapper.status ∈ o.From
         then some ((wrapper.ResponseWriter.Header "X-Applied-Plugin").getD [] ++ [a.name])
         else wrapper.ResponseWriter.Header "X-Applied-Plugin")) ∧
    (wrapper.ResponseWriter.Header "X-Applied-Plugin" = none →
      (∀ o ∈ a.config.Overrides, wrapper.status ∈ o.From →
        ∀ e ∈ o.Headers, CanonicalMIMEHeaderKey e.1 ≠ "X-Applied-Plugin") →
      (changeResponse wrapper a).headers "X-Applied-Plugin" =
        (if a.config.Debug = true ∧ ∃ o ∈ a.config.Overrides, wrapper.status ∈ o.From
         then some [a.name] else none) ∧
      (((changeResponse wrapper a).headers "X-Applied-Plugin").isSome = true ↔
        (a.config.Debug = true ∧ ∃ o ∈ a.config.Overrides, wrapper.status ∈ o.From))) := by
  obtain ⟨v, hv⟩ := ok_of_panic_none wrapper a hok
  have hafter : afterLoop wrapper a = v := by
    unfold afterLoop
    rw [hv]
  have happ : v.appliedOverride = true ↔ ∃ o ∈ a.config.Overrides, wrapper.status ∈ o.From := by
    rw [rangeOverrides_applied _ _ _ _ hv]
    simp [bufferValues]
  have hgen : (changeResponse wrapper a).headers "X-Applied-Plugin" =
      (if a.config.Debug = true ∧ ∃ o ∈ a.config.Overrides, wrapper.status ∈ o.From
       then some ((v.headers "X-Applied-Plugin").getD [] ++ [a.name])
       else v.headers "X-Applied-Plugin") := by
    rw [changeResponse_of_ok wrapper a v hv, emit_headers, finalHeaders_marker]
    by_cases hd : a.config.Debug = true
    · by_cases hm : ∃ o ∈ a.config.Overrides, wrapper.status ∈ o.From
      · rw [if_pos ⟨happ.mpr hm, hd⟩, if_pos ⟨hd, hm⟩]
      · rw [if_neg (fun h => hm (happ.mp h.1)), if_neg (fun h => hm h.2)]
    · rw [if_neg (fun h => hd h.2), if_neg (fun h => hd h.1)]
  refine ⟨?_, ?_, ?_⟩
  · rw [hafter]
    exact hgen
  · intro htouch
    have hsame : v.headers "X-Applied-Plugin" = wrapper.ResponseWriter.Header "X-Applied-Plugin" :=
      rangeOverrides_preserves
        (fun h => h "X-Applied-Plugin" = wrapper.ResponseWriter.Header "X-Applied-Plugin")
        wrapper.status a.config.Overrides
        (fun o ho hm h hh => by
          show editHeaders h o "X-Applied-Plugin" = _
          rw [editHeaders_untouched h o _ (htouch o ho hm)]
          exact hh)
        (bufferValues wrapper) v rfl hv
    rw [hgen, hsame]
  · intro hup hset
    have hnone : v.headers "X-Applied-Plugin" = none :=
      rangeOverrides_preserves (fun h => h "X-Applied-Plugin" = none) wrapper.status
        a.config.Overrides
        (fun o ho hm h hh => by
          show editHeaders h o "X-Applied-Plugin" = none
          unfold editHeaders
          rw [foldl_setHeader_of_ne _ _ _ (hset o ho hm)]
          exact foldl_Del_none _ _ _ hh)
        (bufferValues wrapper) v hup hv
    have hspec : (changeResponse wrapper a).headers "X-Applied-Plugin" =
        (if a.config.Debug = true ∧ ∃ o ∈ a.config.Overrides, wrapper.status ∈ o.From
         then some [a.name] else none) := by
      rw [hgen, hnone]
      rfl
    refine ⟨hspec, ?_⟩
    rw [hspec]
    by_cases hc : a.config.Debug = true ∧ ∃ o ∈ a.config.Overrides, wrapper.status ∈ o.From
    · simp only [if_pos hc, Option.isSome_some, true_iff]
      exact hc
    · simp only [if_neg hc, Option.isSome_none, Bool.false_eq_true, false_iff]
      exact hc

theorem marker_header_witness :
    (changeResponse captureMarked (testPlugin true [ruleOn400])).headers "X-Applied-Plugin"
      = some ["inner-plugin", "test-plugin"] ∧
    (changeResponse captureBasic (testPlugin true [ruleBasic])).headers "X-Applied-Plugin"
      = some ["test-plugin"] := by
  have h1 := (marker_header captureMarked (testPlugin true [ruleOn400]) (by decide)).2.1
    (by decide)
  have h2 := ((marker_header captureBasic (testPlugin true [ruleBasic]) (by decide)).2.2
    (by decide) (by decide)).1
  exact ⟨h1.trans (by decide), h2.trans (by decide)⟩

theorem switchMode_unsupported (body : List UInt8) (o : Override) (h : ¬ SupportedMode o.Mode) :
    switchMode body o = .error ("Unsupported override mode: " ++ o.Mode) := by
  unfold SupportedMode at h
  unfold switchMode
  split_ifs with h1 h2 h3 h4
  · exact absurd (Or.inl h1) h
  · exact absurd (Or.inr (Or.inl h2)) h
  · exact absurd (Or.inr (Or.inr (Or.inl h3))) h
  · rcases h4 with h4 | h4
    · exact absurd (Or.inr (Or.inr (Or.inr (Or.inl h4)))) h
    · exact absurd (Or.inr (Or.inr (Or.inr (Or.inr h4)))) h
  · rfl

theorem applyOverride_unsupported (v : Locals) (o : Override) (h : ¬ SupportedMode o.Mode) :
    applyOverride v o =
      .error { value := "Unsupported override mode: " ++ o.Mode,
               headers := editHeaders v.headers o } := by
  unfold applyOverride
  simp only [switchMode_unsupported v.body o h]

theorem rangeOverrides_unsupported (status : Int) (rules : List Override) (v : Locals)
    (h : ∃ o ∈ rules, status ∈ o.From ∧ ¬ SupportedMode o.Mode) :
    ∃ o1 ∈ rules, status ∈ o1.From ∧ ¬ SupportedMode o1.Mode ∧
      ∃ p, rangeOverrides status rules v = .error p ∧
        p.value = "Unsupported override mode: " ++ o1.Mode := by
  induction rules generalizing v with
  | nil =>
    obtain ⟨o, ho, _⟩ := h
    simp at ho
  | cons r rs ih =>
    by_cases hr : status ∈ r.From
    · by_cases hs : SupportedMode r.Mode
      · have hrest : ∃ o ∈ rs, status ∈ o.From ∧ ¬ SupportedMode o.Mode := by
          obtain ⟨o, ho, hm, hb⟩ := h
          rcases List.mem_cons.mp ho with he | he
          · subst he
            exact absurd hs hb
          · exact ⟨o, he, hm, hb⟩
        obtain ⟨v1, h1, _⟩ := applyOverride_supported v r hs
        obtain ⟨o1, ho1, hm1, hb1, p, hp, hval⟩ := ih v1 hrest
        refine ⟨o1, List.mem_cons_of_mem _ ho1, hm1, hb1, p, ?_, hval⟩
        simp only [rangeOverrides, hr, if_true, h1, hp]
      · refine ⟨r, List.mem_cons_self _ _, hr, hs,
          { value := "Unsupported override mode: " ++ r.Mode,
            headers := editHeaders v.headers r }, ?_, rfl⟩
        simp only [rangeOverrides, hr, if_true, applyOverride_unsupported v r hs]
    · have hrest : ∃ o ∈ rs, status ∈ o.From ∧ ¬ SupportedMode o.Mode := by
        obtain ⟨o, ho, hm, hb⟩ := h
        rcases List.mem_cons.mp ho with he | he
        · subst he
          exact absurd hm hr
        · exact ⟨o, he, hm, hb⟩
      obtain ⟨o1, ho1, hm1, hb1, p, hp, hval⟩ := ih v hrest
      refine ⟨o1, List.mem_cons_of_mem _ ho1, hm1, hb1, p, ?_, hval⟩
      simp only [rangeOverrides, hr, if_false, hp]

theorem rangeOverrides_first_unsupported (status : Int) (R1 R2 : List Override) (o : Override)
    (v : Locals) (hm : status ∈ o.From) (hb : ¬ SupportedMode o.Mode)
    (hpre : ∀ r ∈ R1, status ∈ r.From → SupportedMode r.Mode) :
    ∃ p, rangeOverrides status (R1 ++ o :: R2) v = .error p ∧
      p.value = "Unsupported override mode: " ++ o.Mode := by
  have hsup : ∀ r ∈ matching status R1, SupportedMode r.Mode := by
    intro r hr
    have hr1 := List.mem_filter.mp hr
    exact hpre r hr1.1 (by simpa using hr1.2)
  obtain ⟨v1, h1, _⟩ := applyInOrder_supported _ v hsup
  rw [← rangeOverrides_eq_applyInOrder] at h1
  refine ⟨{ value := "Unsupported override mode: " ++ o.Mode,
            headers := editHeaders v1.headers o }, ?_, rfl⟩
  rw [rangeOverrides_append, h1]
  simp only [rangeOverrides, hm, if_true, applyOverride_unsupported v1 o hb]

theorem changeResponse_of_error (wrapper : ResponseWriterWrapper) (a : Plugin) (p : Panic)
    (h : rangeOverrides wrapper.status a.config.Overrides (bufferValues wrapper) = .error p) :
    changeResponse wrapper a = { headers := p.headers, calls := [], panic := some p.value } := by
  unfold changeResponse
  simp only [h]

/-- C12: when a rule whose `From` contains the captured status has a mode
other than `""`, `replace`, `keep`, `append` and `prepend`, `changeResponse`
panics with `Unsupported override mode: ` followed by the mode of the first
such rule (the mode of the rule itself when every matching rule before it has
a supported mode); no call reaches the real writer: no status is declared and
no byte is written. -/
theorem unsupported_mode_panics (wrapper : ResponseWriterWrapper) (a : Plugin)
    (R1 R2 : List Override) (o : Override)
    (hrules : a.config.Overrides = R1 ++ o :: R2)
    (hmatch : wrapper.status ∈ o.From)
    (hbad : ¬ SupportedMode o.Mode) :
    (∃ o1 ∈ a.config.Overrides, wrapper.status ∈ o1.From ∧ ¬ SupportedMode o1.Mode ∧
      (changeResponse wrapper a).panic = some ("Unsupported override mode: " ++ o1.Mode)) ∧
    ((∀ r ∈ R1, wrapper.status ∈ r.From → SupportedMode r.Mode) →
      (changeResponse wrapper a).panic = some ("Unsupported override mode: " ++ o.Mode)) ∧
    (changeResponse wrapper a).calls = [] ∧
    (changeResponse wrapper a).status = none ∧
    (changeResponse wrapper a).body = [] := by
  have hex : ∃ r ∈ a.config.Overrides, wrapper.status ∈ r.From ∧ ¬ SupportedMode r.Mode :=
    ⟨o, by rw [hrules]; simp, hmatch, hbad⟩
  obtain ⟨o1, ho1, hm1, hb1, p, hp, hval⟩ :=
    rangeOverrides_unsupported wrapper.status a.config.Overrides (bufferValues wrapper) hex
  have hcr := changeResponse_of_error wrapper a p hp
  refine ⟨⟨o1, ho1, hm1, hb1, ?_⟩, ?_, ?_, ?_, ?_⟩
  · rw [hcr, hval]
  · intro hpre
    obtain ⟨p2, hp2, hval2⟩ :=
      rangeOverrides_first_unsupported wrapper.status R1 R2 o (bufferValues wrapper) hmatch hbad
        hpre
    rw [← hrules] at hp2
    rw [changeResponse_of_error wrapper a p2 hp2, hval2]
  · rw [hcr]
  · rw [hcr]
    rfl
  · rw [hcr]
    rfl

theorem unsupported_mode_panics_witness :
    (changeResponse capture500 (testPlugin true [ruleFirst, ruleBadMode, ruleSecond])).panic
      = some "Unsupported override mode: merge" ∧
    (changeResponse capture500 (testPlugin true [ruleFirst, ruleBadMode, ruleSecond])).calls = [] ∧
    (changeResponse capture500 (testPlugin true [ruleFirst, ruleBadMode, ruleSecond])).status
      = none := by
  have h := unsupported_mode_panics capture500
    (testPlugin true [ruleFirst, ruleBadMode, ruleSecond]) [ruleFirst] [ruleSecond] ruleBadMode
    rfl (by decide) (by decide)
  exact ⟨h.2.1 (by decide), h.2.2.1, h.2.2.2.1⟩

/-- C13: `New` returns the error `config must be defined` and no handler for
a nil config; the error `at least one override rule is required` and no
handler for a config with no rule, in particular for the config of
`CreateConfig`; and for every other config no error and a plugin holding
exactly the given next handler, name and config. -/
theorem new_checks_config (next : ResponseWriterWrapper → ResponseWriterWrapper)
    (name : String) :
    ((New next none name).err = some "config must be defined" ∧
      (New next none name).handler = none) ∧
    (∀ c : Config, c.Overrides = [] →
      (New next (some c) name).err = some "at least one override rule is required" ∧
      (New next (some c) name).handler = none) ∧
    ((New next (some CreateConfig) name).err = some "at least one override rule is required" ∧
      (New next (some CreateConfig) name).handler = none ∧ CreateConfig.Overrides = []) ∧
    (∀ c : Config, c.Overrides ≠ [] →
      (New next (some c) name).err = none ∧
      (New next (some c) name).handler = some { next := next, name := name, config := c }) := by
  refine ⟨⟨rfl, rfl⟩, ?_, ⟨rfl, rfl, rfl⟩, ?_⟩
  · intro c hc
    simp [New, hc]
  · intro c hc
    have hlen : ¬ (c.Overrides.length = 0) := by
      intro h0
      exact hc (List.length_eq_zero.mp h0)
    simp [New, hlen]

theorem rangeOverrides_skip (status : Int) (R1 R2 : List Override) (o : Override) (v : Locals)
    (ho : status ∉ o.From) :
    rangeOverrides status (R1 ++ o :: R2) v = rangeOverrides status (R1 ++ R2) v := by
  rw [rangeOverrides_append, rangeOverrides_append]
  cases rangeOverrides status R1 v with
  | error p => rfl
  | ok v1 => simp only [rangeOverrides, ho, if_false]

/-- C14, the code at the failing input: a config whose only rule has an
empty `From` goes through `New`, which returns no error and builds the
plugin holding that config, although the comment on `Override.From` calls
the field required and `New` does check the rule list itself. -/
theorem new_empty_from_accepted :
    ruleEmptyFrom.From = [] ∧
    (New id (some { Overrides := [ruleEmptyFrom], Debug := false }) "test-plugin").err = none ∧
    (New id (some { Overrides := [ruleEmptyFrom], Debug := false }) "test-plugin").handler.isSome
      = true ∧
    ((New id (some { Overrides := [ruleEmptyFrom], Debug := false }) "test-plugin").handler.map
      (fun p => p.config.Overrides)) = some [ruleEmptyFrom] := by
  decide

/-! ## The capture -/

theorem foldl_WriteHeader_frame (codes : List Int) (rw : ResponseWriterWrapper) :
    (codes.foldl ResponseWriterWrapper.WriteHeader rw).body = rw.body ∧
    (codes.foldl ResponseWriterWrapper.WriteHeader rw).ResponseWriter = rw.ResponseWriter := by
  induction codes generalizing rw with
  | nil => exact ⟨rfl, rfl⟩
  | cons c cs ih =>
    simp only [List.foldl_cons]
    exact ih (rw.WriteHeader c)

/-- C15: `WriteHeader(code)` sets the captured status to `code` and changes
nothing else: the body buffer and the real writer (its header map, its
`Write`) are as before, and the method hands nothing to the real writer.
After any sequence of `WriteHeader` calls the captured status is the code of
the last call, the body and the real writer still as before. -/
theorem writeHeader_captures_status (rw : ResponseWriterWrapper) (code : Int)
    (codes : List Int) :
    (rw.WriteHeader code).status = code ∧
    (rw.WriteHeader code).body = rw.body ∧
    (rw.WriteHeader code).ResponseWriter = rw.ResponseWriter ∧
    ((codes ++ [code]).foldl ResponseWriterWrapper.WriteHeader rw).status = code ∧
    ((codes ++ [code]).foldl ResponseWriterWrapper.WriteHeader rw).body = rw.body ∧
    ((codes ++ [code]).foldl ResponseWriterWrapper.WriteHeader rw).ResponseWriter
      = rw.ResponseWriter := by
  refine ⟨rfl, rfl, rfl, ?_, (foldl_WriteHeader_frame _ rw).1, (foldl_WriteHeader_frame _ rw).2⟩
  rw [List.foldl_append]
  rfl

/-- C16, the claim as stated fails: the upstream handler declares 500 and
later 200.  With a rule on 500 the rule does not fire (status 200 and the
upstream body are emitted, not 404); with no rule matching 500 or 200 the
emitted status is 200, not 500. -/
theorem first_declaration_counterexample :
    (declareTwice { ResponseWriter := okWriter (Header.ofList []), body := [], status := 0 }).status
      = 200 ∧
    (500 : Int) ∈ ruleOn500.From ∧
    (Plugin.ServeHTTP (twicePlugin [ruleOn500]) (okWriter (Header.ofList []))).status = some 200 ∧
    (Plugin.ServeHTTP (twicePlugin [ruleOn500]) (okWriter (Header.ofList []))).body
      = stringBytes "upstream" ∧
    (500 : Int) ∉ ruleOn400.From ∧ (200 : Int) ∉ ruleOn400.From ∧
    (Plugin.ServeHTTP (twicePlugin [ruleOn400]) (okWriter (Header.ofList []))).status = some 200 ∧
    (Plugin.ServeHTTP (twicePlugin [ruleOn400]) (okWriter (Header.ofList []))).status
      ≠ some 500 := by
  decide

theorem writeAll_eq (ds : List (List UInt8)) (w : ResponseWriterWrapper) :
    writeAll ds w =
      { ResponseWriter := w.ResponseWriter, body := w.body ++ ds.flatten, status := w.status } := by
  induction ds generalizing w with
  | nil => simp [writeAll]
  | cons d rest ih =>
    have hstep : writeAll (d :: rest) w = writeAll rest (w.Write d).1 := rfl
    rw [hstep, ih]
    simp [ResponseWriterWrapper.Write]

theorem declareBoth_eq_declareLast (c1 c2 : Int) (ds0 ds1 ds2 : List (List UInt8))
    (w : ResponseWriterWrapper) :
    declareBoth c1 c2 ds0 ds1 ds2 w = declareLast c2 ds0 ds1 ds2 w := by
  unfold declareBoth declareLast
  simp [writeAll_eq, ResponseWriterWrapper.WriteHeader]

theorem declareBoth_status (c1 c2 : Int) (ds0 ds1 ds2 : List (List UInt8))
    (w : ResponseWriterWrapper) : (declareBoth c1 c2 ds0 ds1 ds2 w).status = c2 := by
  unfold declareBoth
  simp [writeAll_eq, ResponseWriterWrapper.WriteHeader]

theorem changeResponse_matching (wrapper : ResponseWriterWrapper) (a : Plugin) :
    changeResponse wrapper a =
      changeResponse wrapper (a.withRules (matching wrapper.status a.config.Overrides)) := by
  unfold changeResponse
  simp only [Plugin.withRules]
  rw [rangeOverrides_eq_applyInOrder wrapper.status (matching wrapper.status a.config.Overrides)]
  unfold matching
  rw [List.filter_filter]
  simp only [Bool.and_self]
  rw [← matching, ← rangeOverrides_eq_applyInOrder]
  rfl

theorem status_of_supported (wrapper : ResponseWriterWrapper) (a : Plugin)
    (h : ∀ o ∈ a.config.Overrides, wrapper.status ∈ o.From → SupportedMode o.Mode) :
    (changeResponse wrapper a).status =
      some ((((matching wrapper.status a.config.Overrides).getLast?).map Override.To).getD
        wrapper.status) := by
  have hm : ∀ o ∈ matching wrapper.status a.config.Overrides, SupportedMode o.Mode := by
    intro o ho
    have ho1 := List.mem_filter.mp ho
    exact h o ho1.1 (by simpa using ho1.2)
  obtain ⟨v, hv, hs⟩ := applyInOrder_supported _ (bufferValues wrapper) hm
  have hr : rangeOverrides wrapper.status a.config.Overrides (bufferValues wrapper) = .ok v := by
    rw [rangeOverrides_eq_applyInOrder, hv]
  rw [changeResponse_of_ok wrapper a v hr, emit_status, hs]
  rfl

/-- C16, amended: the match key of the rule pass is the status the capture
holds when the upstream handler returns, the last declaration winning.  For a
handler that declares `c1` and later `c2`, with any writes before, between
and after the two declarations, the capture it leaves is the one of the same
handler without the first declaration, so the pass is the same; the rules
are matched against `c2`: the pass is the one on the rules whose `From`
contains `c2`, with supported modes the emitted status is the `To` of the
last rule on `c2`, and with no rule matching `c2` it is `c2`. -/
theorem last_declaration_is_match_key (w : ResponseWriterWrapper) (a : Plugin) (c1 c2 : Int)
    (ds0 ds1 ds2 : List (List UInt8)) :
    (declareBoth c1 c2 ds0 ds1 ds2 w).status = c2 ∧
    declareBoth c1 c2 ds0 ds1 ds2 w = declareLast c2 ds0 ds1 ds2 w ∧
    changeResponse (declareBoth c1 c2 ds0 ds1 ds2 w) a =
      changeResponse (declareLast c2 ds0 ds1 ds2 w) a ∧
    (∀ rw : ResponseWriter,
      Plugin.ServeHTTP { a with next := declareBoth c1 c2 ds0 ds1 ds2 } rw =
        Plugin.ServeHTTP { a with next := declareLast c2 ds0 ds1 ds2 } rw) ∧
    changeResponse (declareBoth c1 c2 ds0 ds1 ds2 w) a =
      changeResponse (declareBoth c1 c2 ds0 ds1 ds2 w)
        (a.withRules (matching c2 a.config.Overrides)) ∧
    ((∀ o ∈ a.config.Overrides, c2 ∈ o.From → SupportedMode o.Mode) →
      (changeResponse (declareBoth c1 c2 ds0 ds1 ds2 w) a).status =
        some ((((matching c2 a.config.Overrides).getLast?).map Override.To).getD c2)) ∧
    ((∀ o ∈ a.config.Overrides, c2 ∉ o.From) →
      (changeResponse (declareBoth c1 c2 ds0 ds1 ds2 w) a).status = some c2) := by
  have hst := declareBoth_status c1 c2 ds0 ds1 ds2 w
  refine ⟨hst, declareBoth_eq_declareLast c1 c2 ds0 ds1 ds2 w, ?_, ?_, ?_, ?_, ?_⟩
  · rw [declareBoth_eq_declareLast]
  · intro rw
    unfold Plugin.ServeHTTP
    simp only [declareBoth_eq_declareLast]
    rfl
  · have h := changeResponse_matching (declareBoth c1 c2 ds0 ds1 ds2 w) a
    rw [hst] at h
    exact h
  · intro hsup
    have h := status_of_supported (declareBoth c1 c2 ds0 ds1 ds2 w) a (by rw [hst]; exact hsup)
    rw [hst] at h
    exact h
  · intro hno
    have hr := rangeOverrides_of_no_match (declareBoth c1 c2 ds0 ds1 ds2 w).status
      a.config.Overrides (bufferValues (declareBoth c1 c2 ds0 ds1 ds2 w))
      (by rw [hst]; exact hno)
    rw [changeResponse_of_ok _ a _ hr, emit_status]
    exact congrArg some hst

theorem last_declaration_is_match_key_witness :
    declareTwice freshCapture = declareBoth 500 200 [] [] [stringBytes "upstream"] freshCapture ∧
    (changeResponse (declareBoth 500 200 [] [] [stringBytes "upstream"] freshCapture)
      (testPlugin false [ruleOn500])).status = some 200 ∧
    (changeResponse (declareBoth 500 200 [] [] [stringBytes "upstream"] freshCapture)
      (testPlugin false [ruleOn500, ruleOn200])).status = some 201 := by
  have h := last_declaration_is_match_key freshCapture (testPlugin false [ruleOn500]) 500 200
    [] [] [stringBytes "upstream"]
  have h2 := last_declaration_is_match_key freshCapture (testPlugin false [ruleOn500, ruleOn200])
    500 200 [] [] [stringBytes "upstream"]
  exact ⟨rfl, h.2.2.2.2.2.2 (by decide), (h2.2.2.2.2.2.1 (by decide)).trans (by decide)⟩

theorem foldl_Write_body (ds : List (List UInt8)) (rw : ResponseWriterWrapper) :
    (ds.foldl (fun w d => (w.Write d).1) rw).body = rw.body ++ ds.flatten ∧
    (ds.foldl (fun w d => (w.Write d).1) rw).status = rw.status ∧
    (ds.foldl (fun w d => (w.Write d).1) rw).ResponseWriter = rw.ResponseWriter := by
  induction ds generalizing rw with
  | nil => simp
  | cons d rest ih =>
    simp only [List.foldl_cons, List.flatten_cons]
    obtain ⟨h1, h2, h3⟩ := ih (rw.Write d).1
    refine ⟨?_, h2, h3⟩
    rw [h1]
    simp [ResponseWriterWrapper.Write]

/-- C17: `Write(data)` answers `(len(data), nil)`, leaves the captured status
and the real writer as they are, and the buffered body is the previous body
followed by `data`; after the writes `d1 .. dn` the buffered body is the
previous body followed by `d1 ++ .. ++ dn`, which for a fresh capture is
`d1 ++ .. ++ dn`. -/
theorem write_appends_to_buffer (rw : ResponseWriterWrapper) (data : List UInt8)
    (ds : List (List UInt8)) :
    (rw.Write data).2 = (data.length, none) ∧
    (rw.Write data).1.status = rw.status ∧
    (rw.Write data).1.ResponseWriter = rw.ResponseWriter ∧
    (rw.Write data).1.body = rw.body ++ data ∧
    (ds.foldl (fun w d => (w.Write d).1) rw).body = rw.body ++ ds.flatten ∧
    (ds.foldl (fun w d => (w.Write d).1) rw).status = rw.status ∧
    (ds.foldl (fun w d => (w.Write d).1)
      ({ ResponseWriter := rw.ResponseWriter, body := [], status := 0 } :
        ResponseWriterWrapper)).body = ds.flatten := by
  refine ⟨rfl, rfl, rfl, rfl, (foldl_Write_body ds rw).1, (foldl_Write_body ds rw).2.1, ?_⟩
  rw [(foldl_Write_body ds _).1]
  rfl

/-! ## Emission -/

theorem emit_calls_of_copy_ok (rw : ResponseWriter) (debug : Bool) (statusCode : Int)
    (headers : Header) (body : List UInt8) (h : copyError rw body = none) :
    (emit rw debug statusCode headers body).calls =
      [Call.WriteHeader statusCode] ++ (if body.length > 0 then [Call.Write body] else []) ++
        (if debug then [Call.Notify 0 []] else []) := by
  unfold copyError at h
  unfold emit
  by_cases hlen : body.length > 0
  · simp only [hlen, if_true] at h ⊢
    cases hw : (rw.Write body).2 with
    | some e => simp [hw] at h
    | none =>
      simp only [hw] at h ⊢
      have hm : (rw.Write body).1 = body.length := by
        by_contra hne
        simp [hne] at h
      simp [hm]
  · simp [hlen]

theorem emit_calls_of_copy_error (rw : ResponseWriter) (debug : Bool) (statusCode : Int)
    (headers : Header) (body : List UInt8) (e : String)
    (hcount : (rw.Write body).1 ≤ body.length) (h : copyError rw body = some e) :
    (emit rw debug statusCode headers body).calls =
      [Call.WriteHeader statusCode, Call.Write body,
        Call.Alert ("cannot write response body: " ++ e), Call.Error e 500] ++
        (if debug then [Call.Notify (body.drop (rw.Write body).1).length
          (body.drop (rw.Write body).1)] else []) := by
  unfold copyError at h
  unfold emit
  by_cases hlen : body.length > 0
  · have hc : ¬ ((rw.Write body).1 > body.length) := Nat.not_lt.mpr hcount
    simp only [hlen, if_true, hc, if_false] at h ⊢
    rw [h]
    simp
  · simp [hlen] at h

/-- C18: on a run that leaves the rule loop without a panic, with a real
writer that does not claim more bytes than it was given.  If the copy of the
final body fails with the error `e`, the calls are: the status declaration,
the one `Write`, then `Alert` once with `cannot write response body: `
followed by `e`, and right after it the fallback `http.Error` with `e` and
500 (then only the debug notification).  If the copy succeeds, `Alert` is
never called, no fallback is attempted, the status is declared once and the
body handed over once. -/
theorem copy_failure_alerts_once (wrapper : ResponseWriterWrapper) (a : Plugin) (v : Locals)
    (hr : rangeOverrides wrapper.status a.config.Overrides (bufferValues wrapper) = .ok v)
    (hcount : (wrapper.ResponseWriter.Write v.body).1 ≤ v.body.length) :
    (∀ e, copyError wrapper.ResponseWriter v.body = some e →
      (∃ tail, (changeResponse wrapper a).calls =
          [Call.WriteHeader v.statusCode, Call.Write v.body,
            Call.Alert ("cannot write response body: " ++ e), Call.Error e 500] ++ tail ∧
        alertsOf tail = [] ∧ fallbacksOf tail = []) ∧
      alertsOf (changeResponse wrapper a).calls = ["cannot write response body: " ++ e] ∧
      fallbacksOf (changeResponse wrapper a).calls = [(e, 500)]) ∧
    (copyError wrapper.ResponseWriter v.body = none →
      alertsOf (changeResponse wrapper a).calls = [] ∧
      fallbacksOf (changeResponse wrapper a).calls = [] ∧
      declaredOf (changeResponse wrapper a).calls = [v.statusCode] ∧
      (changeResponse wrapper a).calls =
        [Call.WriteHeader v.statusCode] ++
          (if v.body.length > 0 then [Call.Write v.body] else []) ++
          (if a.config.Debug then [Call.Notify 0 []] else []) ∧
      (changeResponse wrapper a).panic = none) := by
  rw [changeResponse_of_ok wrapper a v hr]
  constructor
  · intro e he
    rw [emit_calls_of_copy_error _ _ _ _ _ e hcount he]
    refine ⟨⟨_, rfl, ?_, ?_⟩, ?_, ?_⟩ <;>
      cases a.config.Debug <;> simp [alertsOf, fallbacksOf]
  · intro hnone
    rw [emit_calls_of_copy_ok _ _ _ _ _ hnone]
    refine ⟨?_, ?_, ?_, rfl, ?_⟩
    · cases a.config.Debug <;> by_cases hl : v.body.length > 0 <;> simp [alertsOf, hl]
    · cases a.config.Debug <;> by_cases hl : v.body.length > 0 <;> simp [fallbacksOf, hl]
    · cases a.config.Debug <;> by_cases hl : v.body.length > 0 <;> simp [declaredOf, hl]
    · unfold copyError at hnone
      unfold emit
      by_cases hlen : v.body.length > 0
      · simp only [hlen, if_true] at hnone ⊢
        have hc : ¬ ((wrapper.ResponseWriter.Write v.body).1 > v.body.length) :=
          Nat.not_lt.mpr hcount
        simp only [hc, if_false]
        rw [hnone]
      · simp [hlen]

theorem copy_failure_alerts_once_witness :
    alertsOf (changeResponse capture500Broken (testPlugin true [ruleFirst])).calls
      = ["cannot write response body: broken pipe"] ∧
    fallbacksOf (changeResponse capture500Broken (testPlugin true [ruleFirst])).calls
      = [("broken pipe", 500)] ∧
    alertsOf (changeResponse capture500 (testPlugin true [ruleFirst])).calls = [] ∧
    fallbacksOf (changeResponse capture500 (testPlugin true [ruleFirst])).calls = [] ∧
    declaredOf (changeResponse capture500 (testPlugin true [ruleFirst])).calls = [400] := by
  have h1 := (copy_failure_alerts_once capture500Broken (testPlugin true [ruleFirst])
    (afterLoop capture500Broken (testPlugin true [ruleFirst])) rfl (by decide)).1
    "broken pipe" (by decide)
  have h2 := (copy_failure_alerts_once capture500 (testPlugin true [ruleFirst])
    (afterLoop capture500 (testPlugin true [ruleFirst])) rfl (by decide)).2 (by decide)
  exact ⟨h1.2.1, h1.2.2, h2.1, h2.2.1, h2.2.2.1⟩

/-! ## Order of the effects, untouched headers -/

theorem run_setHeaderOps (h : Header) (k : String) (hv : List String) :
    (setHeaderOps h k hv).foldl HeaderOp.run h = setHeader h k hv := by
  unfold setHeaderOps setHeader
  rw [List.foldl_append, List.foldl_map]
  split <;> rfl

theorem run_rangeHeadersOps (es : List (String × List String)) (h : Header) :
    (rangeHeadersOps h es).foldl HeaderOp.run h =
      es.foldl (fun h e => setHeader h e.1 e.2) h := by
  induction es generalizing h with
  | nil => rfl
  | cons e rest ih =>
    simp only [rangeHeadersOps, List.foldl_append, run_setHeaderOps, List.foldl_cons]
    exact ih _

theorem run_editHeadersOps (h : Header) (o : Override) :
    (editHeadersOps h o).foldl HeaderOp.run h = editHeaders h o := by
  unfold editHeadersOps editHeaders
  rw [List.foldl_append, List.foldl_map]
  exact run_rangeHeadersOps _ _

theorem run_rangeOverridesOps (status : Int) (rules : List Override) (v v1 : Locals)
    (hr : rangeOverrides status rules v = .ok v1) :
    (rangeOverridesOps status rules v).foldl HeaderOp.run v.headers = v1.headers := by
  induction rules generalizing v with
  | nil =>
    simp only [rangeOverrides] at hr
    injection hr with hr
    rw [← hr]
    rfl
  | cons o os ih =>
    by_cases ho : status ∈ o.From
    · simp only [rangeOverrides, ho, if_true] at hr
      simp only [rangeOverridesOps, ho, if_true]
      cases ha : applyOverride v o with
      | ok v2 =>
        simp only [ha] at hr ⊢
        rw [List.foldl_append, run_editHeadersOps, ← applyOverride_ok_headers v v2 o ha]
        exact ih v2 hr
      | error p => simp [ha] at hr
    · simp only [rangeOverrides, ho, if_false] at hr
      simp only [rangeOverridesOps, ho, if_false]
      exact ih v hr

theorem run_finalHeadersOps (v : Locals) (a : Plugin) :
    (finalHeadersOps v a).foldl HeaderOp.run v.headers = finalHeaders v a := by
  unfold finalHeadersOps finalHeaders
  rw [List.foldl_append]
  split <;> rfl

/-- C19: on a run that leaves the rule loop without a panic and whose body
copy succeeds, the effects come in this order: first every header mutation
(the edits of the matching rules, `Content-Length`, the marker header), which
together turn the upstream header map into the emitted one; then exactly one
status declaration, carrying the working status; then the final body in one
`Write` (none for an empty body); then only the debug notification.  No
header mutation follows the status declaration. -/
theorem headers_then_status_then_body (wrapper : ResponseWriterWrapper) (a : Plugin)
    (v : Locals)
    (hr : rangeOverrides wrapper.status a.config.Overrides (bufferValues wrapper) = .ok v)
    (hcopy : copyError wrapper.ResponseWriter v.body = none) :
    changeResponseTrace wrapper a =
      (rangeOverridesOps wrapper.status a.config.Overrides (bufferValues wrapper) ++
          finalHeadersOps v a).map Event.Header ++
        [Event.Call (Call.WriteHeader v.statusCode)] ++
        (if v.body.length > 0 then [Event.Call (Call.Write v.body)] else []) ++
        (if a.config.Debug then [Event.Call (Call.Notify 0 [])] else []) ∧
    (rangeOverridesOps wrapper.status a.config.Overrides (bufferValues wrapper) ++
        finalHeadersOps v a).foldl HeaderOp.run wrapper.ResponseWriter.Header
      = (changeResponse wrapper a).headers ∧
    (changeResponse wrapper a).status = some v.statusCode ∧
    (changeResponse wrapper a).body = v.body ∧
    declaredOf (changeResponse wrapper a).calls = [v.statusCode] := by
  refine ⟨?_, ?_, ?_, ?_, ?_⟩
  · unfold changeResponseTrace
    simp only [hr]
    rw [emit_calls_of_copy_ok _ _ _ _ _ hcopy]
    cases a.config.Debug <;> by_cases hl : v.body.length > 0 <;> simp [hl]
  · rw [changeResponse_of_ok wrapper a v hr, emit_headers, List.foldl_append]
    have h1 := run_rangeOverridesOps wrapper.status a.config.Overrides (bufferValues wrapper) v hr
    simp only [bufferValues] at h1
    simp only [bufferValues]
    rw [h1]
    exact run_finalHeadersOps v a
  · rw [changeResponse_of_ok wrapper a v hr, emit_status]
  · rw [changeResponse_of_ok wrapper a v hr, emit_body]
  · rw [changeResponse_of_ok wrapper a v hr, emit_calls_of_copy_ok _ _ _ _ _ hcopy]
    cases a.config.Debug <;> by_cases hl : v.body.length > 0 <;> simp [declaredOf, hl]

theorem headers_then_status_then_body_witness :
    changeResponseTrace captureBasic (testPlugin true [ruleBasic]) =
      [Event.Header (HeaderOp.Del "Content-Type"),
        Event.Header (HeaderOp.Add "Content-Type" "application/json"),
        Event.Header (HeaderOp.Del "X-Foo"),
        Event.Header (HeaderOp.Add "X-Foo" "bar"),
        Event.Header (HeaderOp.Add "X-Foo" "baz"),
        Event.Header (HeaderOp.Set "Content-Length" "13"),
        Event.Header (HeaderOp.Add "X-Applied-Plugin" "test-plugin"),
        Event.Call (Call.WriteHeader 500),
        Event.Call (Call.Write (stringBytes "Test override")),
        Event.Call (Call.Notify 0 [])] := by
  have h := (headers_then_status_then_body captureBasic (testPlugin true [ruleBasic])
    (afterLoop captureBasic (testPlugin true [ruleBasic])) rfl (by decide)).1
  rw [h]
  decide

/-- C20: when the pass does not panic, a header key that is not
`Content-Length`, not `X-Applied-Plugin`, and not the canonical form of a name
in `Headers` or `RemoveHeaders` of a rule matching the captured status has in
the emitted header map exactly the value list the upstream handler left under
it (and is absent when it was absent). -/
theorem untouched_header_preserved (wrapper : ResponseWriterWrapper) (a : Plugin) (k : String)
    (hok : (changeResponse wrapper a).panic = none)
    (hCL : k ≠ "Content-Length") (hM : k ≠ "X-Applied-Plugin")
    (hrules : ∀ o ∈ a.config.Overrides, wrapper.status ∈ o.From → o.touches k = false) :
    (changeResponse wrapper a).headers k = wrapper.ResponseWriter.Header k := by
  obtain ⟨v, hv⟩ := ok_of_panic_none wrapper a hok
  rw [changeResponse_of_ok wrapper a v hv, emit_headers,
    finalHeaders_other v a k hCL (Or.inl hM)]
  exact rangeOverrides_preserves (fun h => h k = wrapper.ResponseWriter.Header k)
    wrapper.status a.config.Overrides
    (fun o ho hm h hh => by
      show editHeaders h o k = _
      rw [editHeaders_untouched h o k (hrules o ho hm)]
      exact hh)
    (bufferValues wrapper) v rfl hv

theorem untouched_header_preserved_witness :
    (changeResponse captureBasic (testPlugin true [ruleBasic])).headers "Server"
      = captureBasic.ResponseWriter.Header "Server" :=
  untouched_header_preserved captureBasic (testPlugin true [ruleBasic]) "Server"
    (by decide) (by decide) (by decide) (by decide)

/-! ## Rules that do not match, the last replace, the undeclared status -/

theorem matching_idem (status : Int) (rules : List Override) :
    matching status (matching status rules) = matching status rules := by
  unfold matching
  rw [List.filter_filter]
  simp

theorem rangeOverrides_matching (status : Int) (rules : List Override) (v : Locals) :
    rangeOverrides status (matching status rules) v = rangeOverrides status rules v := by
  rw [rangeOverrides_eq_applyInOrder, matching_idem, ← rangeOverrides_eq_applyInOrder]

theorem rangeOverridesOps_matching (status : Int) (rules : List Override) (v : Locals) :
    rangeOverridesOps status (matching status rules) v = rangeOverridesOps status rules v := by
  induction rules generalizing v with
  | nil => rfl
  | cons o os ih =>
    by_cases ho : status ∈ o.From
    · simp only [matching, List.filter_cons, ho, decide_True, if_true, rangeOverridesOps]
      cases applyOverride v o with
      | ok v1 => exact congrArg _ (ih v1)
      | error p => rfl
    · simp only [matching, List.filter_cons, ho, decide_False, rangeOverridesOps, if_false]
      exact ih v

/-- C21: for every captured response and every plugin (rule list, name and
debug flag), `changeResponse` gives the same outcome (header map, calls on
the real writer and the sinks, panic) and the same sequence of effects as on
the sub-list of the rules whose `From` contains the captured status, in the
same order; and a rule that does not match can be dropped from the list
without any change, whatever its `RemoveHeaders`, `Headers` and `Mode` are. -/
theorem non_matching_rules_have_no_effect (wrapper : ResponseWriterWrapper) (a : Plugin) :
    changeResponse wrapper a =
      changeResponse wrapper (a.withRules (matching wrapper.status a.config.Overrides)) ∧
    changeResponseTrace wrapper a =
      changeResponseTrace wrapper (a.withRules (matching wrapper.status a.config.Overrides)) ∧
    (∀ (R1 R2 : List Override) (o : Override), a.config.Overrides = R1 ++ o :: R2 →
      wrapper.status ∉ o.From →
      changeResponse wrapper a = changeResponse wrapper (a.withRules (R1 ++ R2))) := by
  refine ⟨?_, ?_, ?_⟩
  · unfold changeResponse
    simp only [Plugin.withRules]
    rw [rangeOverrides_matching]
    rfl
  · unfold changeResponseTrace
    simp only [Plugin.withRules]
    rw [rangeOverrides_matching, rangeOverridesOps_matching]
    rfl
  · intro R1 R2 o hrules ho
    unfold changeResponse
    simp only [Plugin.withRules, hrules]
    rw [rangeOverrides_skip wrapper.status R1 R2 o (bufferValues wrapper) ho]
    rfl

theorem applyOverride_ok_switchMode (v v1 : Locals) (o : Override)
    (h : applyOverride v o = .ok v1) : switchMode v.body o = .ok v1.body := by
  unfold applyOverride at h
  cases hs : switchMode v.body o with
  | ok b =>
    simp only [hs] at h
    injection h with h
    rw [← h]
  | error m => simp [hs] at h

theorem loopBody_applyOverride_congr (v w : Locals) (o : Override) (hb : v.body = w.body) :
    loopBody (applyOverride v o) = loopBody (applyOverride w o) := by
  unfold applyOverride
  rw [hb]
  cases switchMode w.body o <;> rfl

theorem loopBody_rangeOverrides_congr (status : Int) (rules : List Override) (v w : Locals)
    (hb : v.body = w.body) :
    loopBody (rangeOverrides status rules v) = loopBody (rangeOverrides status rules w) := by
  induction rules generalizing v w with
  | nil =>
    simp only [rangeOverrides, loopBody]
    rw [hb]
  | cons o os ih =>
    by_cases ho : status ∈ o.From
    · simp only [rangeOverrides, ho, if_true]
      cases hs : switchMode v.body o with
      | ok b =>
        have hs2 : switchMode w.body o = .ok b := by rw [← hb]; exact hs
        rw [applyOverride_of_switchMode v o b hs, applyOverride_of_switchMode w o b hs2]
        exact ih _ _ rfl
      | error m =>
        have hs2 : switchMode w.body o = .error m := by rw [← hb]; exact hs
        unfold applyOverride
        simp only [hs, hs2]
        rfl
    · simp only [rangeOverrides, ho, if_false]
      exact ih v w hb

theorem loopBody_from_replace (status : Int) (o : Override) (rest : List Override)
    (v w : Locals) (hm : status ∈ o.From) (hmode : o.Mode = ModeReplace ∨ o.Mode = "") :
    loopBody (rangeOverrides status (o :: rest) v) =
      loopBody (rangeOverrides status (o :: rest) w) := by
  simp only [rangeOverrides, hm, if_true]
  rw [applyOverride_of_switchMode v o _ (switchMode_replace v.body o hmode),
    applyOverride_of_switchMode w o _ (switchMode_replace w.body o hmode)]
  exact loopBody_rangeOverrides_congr status rest _ _ rfl

theorem changeResponse_body (wrapper : ResponseWriterWrapper) (a : Plugin) :
    (changeResponse wrapper a).body =
      (loopBody (rangeOverrides wrapper.status a.config.Overrides (bufferValues wrapper))).getD
        [] := by
  cases hr : rangeOverrides wrapper.status a.config.Overrides (bufferValues wrapper) with
  | ok v =>
    rw [changeResponse_of_ok wrapper a v hr, emit_body]
    rfl
  | error p =>
    rw [changeResponse_of_error wrapper a p hr]
    rfl

theorem rangeOverrides_ok_of_supported (status : Int) (rules : List Override) (v : Locals)
    (h : ∀ r ∈ rules, status ∈ r.From → SupportedMode r.Mode) :
    ∃ v1, rangeOverrides status rules v = .ok v1 := by
  have hsup : ∀ r ∈ matching status rules, SupportedMode r.Mode := by
    intro r hr
    have hr1 := List.mem_filter.mp hr
    exact h r hr1.1 (by simpa using hr1.2)
  obtain ⟨v1, h1, _⟩ := applyInOrder_supported _ v hsup
  exact ⟨v1, by rw [rangeOverrides_eq_applyInOrder, h1]⟩

theorem loopBody_after_prefix (status : Int) (R1 R2 : List Override) (o : Override)
    (v w : Locals) (hm : status ∈ o.From) (hmode : o.Mode = ModeReplace ∨ o.Mode = "")
    (hsup : ∀ r ∈ R1, status ∈ r.From → SupportedMode r.Mode) :
    loopBody (rangeOverrides status (R1 ++ o :: R2) v) =
      loopBody (rangeOverrides status (o :: R2) w) := by
  obtain ⟨v1, h1⟩ := rangeOverrides_ok_of_supported status R1 v hsup
  rw [rangeOverrides_append, h1]
  exact loopBody_from_replace status o R2 v1 w hm hmode

/-- C22: with supported modes on the matching rules, the pass does not panic
and, when the last rule whose `From` contains the captured status has mode
`replace` or `""`, the emitted body is the bytes of that rule's `Body`.  More
generally, behind a matching rule `o` in replace mode the emitted body is the
same for every captured body, every captured header map and every list of
rules (with supported modes) in front of `o`: it depends only on the rules
from `o` onward. -/
theorem last_replace_decides_body (wrapper : ResponseWriterWrapper) (a : Plugin)
    (R1 R2 : List Override) (o : Override)
    (hrules : a.config.Overrides = R1 ++ o :: R2)
    (hmatch : wrapper.status ∈ o.From)
    (hmode : o.Mode = ModeReplace ∨ o.Mode = "")
    (hsup : ∀ r ∈ a.config.Overrides, wrapper.status ∈ r.From → SupportedMode r.Mode) :
    (∃ v, rangeOverrides wrapper.status a.config.Overrides (bufferValues wrapper) = .ok v ∧
      (changeResponse wrapper a).body = v.body) ∧
    ((∀ r ∈ R2, wrapper.status ∉ r.From) →
      (changeResponse wrapper a).body = stringBytes o.Body) ∧
    (∀ (w : ResponseWriterWrapper) (R : List Override), w.status = wrapper.status →
      (∀ r ∈ R, wrapper.status ∈ r.From → SupportedMode r.Mode) →
      (changeResponse w (a.withRules (R ++ o :: R2))).body = (changeResponse wrapper a).body) := by
  have hsup1 : ∀ r ∈ R1, wrapper.status ∈ r.From → SupportedMode r.Mode := by
    intro r hr
    exact hsup r (by rw [hrules]; exact List.mem_append_left _ hr)
  refine ⟨?_, ?_, ?_⟩
  · obtain ⟨v, hv⟩ := rangeOverrides_ok_of_supported wrapper.status a.config.Overrides
      (bufferValues wrapper) hsup
    refine ⟨v, hv, ?_⟩
    rw [changeResponse_of_ok wrapper a v hv, emit_body]
  · intro hlast
    rw [changeResponse_body, hrules,
      loopBody_after_prefix wrapper.status R1 R2 o _ (bufferValues wrapper) hmatch hmode hsup1]
    simp only [rangeOverrides, hmatch, if_true]
    rw [applyOverride_of_switchMode _ o _ (switchMode_replace _ o hmode)]
    dsimp only
    rw [rangeOverrides_of_no_match wrapper.status R2 _ hlast]
    rfl
  · intro w R hw hR
    rw [changeResponse_body, changeResponse_body, hrules]
    simp only [Plugin.withRules]
    rw [hw, loopBody_after_prefix wrapper.status R R2 o _ (bufferValues wrapper) hmatch hmode hR,
      loopBody_after_prefix wrapper.status R1 R2 o _ (bufferValues wrapper) hmatch hmode hsup1]

theorem last_replace_decides_body_witness :
    (changeResponse capture500 (testPlugin false [rulePrepend, ruleBasic, ruleFirst])).body
      = stringBytes "First step\n" ∧
    (changeResponse (captureBasic.WriteHeader 500)
        ((testPlugin false [rulePrepend, ruleFirst, ruleSecond]).withRules
          ([ruleKeep] ++ ruleFirst :: [ruleSecond]))).body
      = (changeResponse capture500 (testPlugin false [rulePrepend, ruleFirst, ruleSecond])).body := by
  have h1 := (last_replace_decides_body capture500
    (testPlugin false [rulePrepend, ruleBasic, ruleFirst]) [rulePrepend, ruleBasic] [] ruleFirst
    rfl (by decide) (Or.inl (by decide)) (by decide)).2.1 (by decide)
  have h2 := (last_replace_decides_body capture500
    (testPlugin false [rulePrepend, ruleFirst, ruleSecond]) [rulePrepend] [ruleSecond] ruleFirst
    rfl (by decide) (Or.inl (by decide)) (by decide)).2.2 (captureBasic.WriteHeader 500)
    [ruleKeep] rfl (by decide)
  exact ⟨h1, h2⟩

/-- C23: an upstream handler that never calls `WriteHeader` on the capture
(writing body bytes does not declare a status) leaves the captured status at
0, the value `ServeHTTP` starts the capture with, not at 200.  A rule with
`From` `[200]` then does not fire (the outcome is the one without that rule),
and when no rule lists 0 in `From` the status `changeResponse` declares on
the real writer is 0. -/
theorem undeclared_status_is_zero (a : Plugin) (rw : ResponseWriter)
    (hnext : ∀ w : ResponseWriterWrapper, (a.next w).status = w.status) :
    (a.next { ResponseWriter := rw, body := [], status := 0 }).status = 0 ∧
    (a.next { ResponseWriter := rw, body := [], status := 0 }).status ≠ 200 ∧
    (∀ (ds : List (List UInt8)) (w : ResponseWriterWrapper),
      (ds.foldl (fun w d => (w.Write d).1) w).status = w.status) ∧
    (∀ (R1 R2 : List Override) (o : Override), a.config.Overrides = R1 ++ o :: R2 →
      o.From = [200] →
      Plugin.ServeHTTP a rw = Plugin.ServeHTTP (a.withRules (R1 ++ R2)) rw) ∧
    ((∀ o ∈ a.config.Overrides, (0 : Int) ∉ o.From) →
      (Plugin.ServeHTTP a rw).status = some 0) := by
  have h0 : (a.next { ResponseWriter := rw, body := [], status := 0 }).status = 0 := hnext _
  refine ⟨h0, ?_, fun ds w => (foldl_Write_body ds w).2.1, ?_, ?_⟩
  · rw [h0]
    decide
  · intro R1 R2 o hrules hfrom
    have hno : (a.next { ResponseWriter := rw, body := [], status := 0 }).status ∉ o.From := by
      rw [h0, hfrom]
      decide
    unfold Plugin.ServeHTTP changeResponse
    simp only [Plugin.withRules, hrules]
    rw [rangeOverrides_skip _ R1 R2 o _ hno]
    rfl
  · intro hno
    unfold Plugin.ServeHTTP
    have hno2 : ∀ o ∈ a.config.Overrides,
        (a.next { ResponseWriter := rw, body := [], status := 0 }).status ∉ o.From := by
      intro o ho
      rw [h0]
      exact hno o ho
    have hr := rangeOverrides_of_no_match _ a.config.Overrides
      (bufferValues (a.next { ResponseWriter := rw, body := [], status := 0 })) hno2
    rw [changeResponse_of_ok _ a _ hr, emit_status]
    exact congrArg some h0

theorem undeclared_status_is_zero_witness :
    (writeOnly { ResponseWriter := okWriter (Header.ofList []), body := [], status := 0 }).status
      = 0 ∧
    Plugin.ServeHTTP (writeOnlyPlugin [ruleOn200]) (okWriter (Header.ofList [])) =
      Plugin.ServeHTTP ((writeOnlyPlugin [ruleOn200]).withRules ([] ++ []))
        (okWriter (Header.ofList [])) ∧
    (Plugin.ServeHTTP (writeOnlyPlugin [ruleOn200]) (okWriter (Header.ofList []))).status
      = some 0 ∧
    (Plugin.ServeHTTP (writeOnlyPlugin [ruleOn200]) (okWriter (Header.ofList []))).body
      = stringBytes "Client response" := by
  have h := undeclared_status_is_zero (writeOnlyPlugin [ruleOn200])
    (okWriter (Header.ofList [])) (fun _ => rfl)
  exact ⟨h.1, h.2.2.2.1 [] [] ruleOn200 rfl rfl, h.2.2.2.2 (by decide), by decide⟩

end ChangeResponse
